import Mathlib

/-!
Verification development for the dream-alpha/streamingserver HLS recording
pipeline.  The Python sources under `src/streamingserver` are embedded
shallowly: Python `bytes` values become `List Nat` (each entry a byte value,
0..255), Python `int` becomes `Int` where negative values can occur and `Nat`
otherwise, and fallible operations return `Option`.  Each definition carries a
doc comment naming the Python function it embeds.
-/

namespace StreamingServer

set_option maxRecDepth 100000

/-- Python `bytes` indexing `b[i]`.  Out-of-range reads return 0; on all the
embedded code paths the index is guarded by a length check first. -/
def byteAt (l : List Nat) (i : Nat) : Nat := l.getD i 0

/-- Python slice `l[a:b]` for `0 ≤ a ≤ b` (clamped at the end of the list). -/
def sliceN (l : List Nat) (a b : Nat) : List Nat := (l.drop a).take (b - a)

/-- Python slice assignment `l[a:a+len(bs)] = bs` on a bytearray: the (clamped)
range `[a, a+len(bs))` is replaced by `bs`; past-the-end positions extend the
array, exactly as in Python. -/
def setSlice (l : List Nat) (a : Nat) (bs : List Nat) : List Nat :=
  l.take a ++ bs ++ l.drop (a + bs.length)

/-- Worker for `findSeq`: scan the suffix `l` (which starts at absolute index
`j` of the original list) for the first occurrence of `pat`. -/
def findSeqGo (pat : List Nat) : List Nat → Nat → Option Nat
  | [], j => if pat.isPrefixOf ([] : List Nat) then some j else none
  | x :: t, j =>
    if pat.isPrefixOf (x :: t) then some j else findSeqGo pat t (j + 1)

/-- Python `bytes.find(pat, start)`: absolute index of the first occurrence of
`pat` at or after `start`, `none` when there is none (Python returns -1). -/
def findSeq (l pat : List Nat) (start : Nat) : Option Nat :=
  findSeqGo pat (l.drop start) start

/-- Python `x >> k` on a (possibly negative) int: floor division by `2^k`. -/
def pyShr (x : Int) (k : Nat) : Int := Int.fdiv x (2 ^ k)

/-- Python `x & (2^k - 1)` on a (possibly negative) int: for a mask of the
form `2^k - 1` Python bitwise-and equals the mathematical value mod `2^k`. -/
def pyAnd (x : Int) (k : Nat) : Nat := (x % ((2 : Int) ^ k)).toNat

/-- Embeds `ts_utils.decode_pts_dts`: decode a 5-byte PTS/DTS field into the
33-bit timestamp. -/
def decode_pts_dts (data : List Nat) : Nat :=
  (((byteAt data 0 >>> 1) &&& 0x07) <<< 30) |||
    ((byteAt data 1 <<< 22) |||
      (((byteAt data 2 >>> 1) &&& 0x7F) <<< 15) |||
      (byteAt data 3 <<< 7) |||
      ((byteAt data 4 >>> 1) &&& 0x7F))

/-- Embeds `ts_utils.encode_pts_dts`: encode a timestamp into the 5-byte
PTS/DTS wire format with the given 2-bit flag. -/
def encode_pts_dts (value : Int) (flagBits : Nat) : List Nat :=
  let val := (flagBits <<< 4) ||| (pyAnd (pyShr value 30) 3 <<< 1) ||| 0x01
  let val2 := (pyAnd (pyShr value 15) 15 <<< 1) ||| 0x01
  let val3 := (pyAnd value 15 <<< 1) ||| 0x01
  [val, (val2 >>> 8) &&& 0xFF, val2 &&& 0xFF, (val3 >>> 8) &&& 0xFF,
    val3 &&& 0xFF]

/-- Embeds `ts_utils.encode_pts_dts_preserve`: re-encode a timestamp while
keeping the flag nibble and the three marker bits of the original field. -/
def encode_pts_dts_preserve (value : Int) (orig : List Nat) : List Nat :=
  if orig.length ≠ 5 then encode_pts_dts value 2
  else
    let b0 := (byteAt orig 0 &&& 0xF0) ||| (pyAnd (pyShr value 30) 3 <<< 1) |||
      (byteAt orig 0 &&& 0x01)
    let b1 := pyAnd (pyShr value 22) 8
    let b2 := (byteAt orig 2 &&& 0x01) ||| (pyAnd (pyShr value 15) 7 <<< 1)
    let b3 := pyAnd (pyShr value 7) 8
    let b4 := (byteAt orig 4 &&& 0x01) ||| (pyAnd value 7 <<< 1)
    [b0, b1, b2, b3, b4]

/-- Index at which `read_pts`/`read_dts` start searching for the PES start
code: byte 4, or past the adaptation field when one is present. -/
def pesIndex (p : List Nat) : Nat :=
  let afc := (byteAt p 3 >>> 4) &&& 0x3
  if afc = 2 ∨ afc = 3 then 4 + 1 + byteAt p 4 else 4

/-- Embeds `ts_utils.read_pts`: extract the PTS from a 188-byte TS packet, or
`none` when the packet has no readable PTS. -/
def read_pts (p : List Nat) : Option Nat :=
  if p.length ≠ 188 then none
  else if byteAt p 0 ≠ 0x47 then none
  else
    match findSeq p [0, 0, 1] (pesIndex p) with
    | none => none
    | some ps =>
      if 188 < ps + 14 then none
      else
        let hlen := byteAt p (ps + 8)
        let flags := byteAt p (ps + 7)
        let pdf := (flags >>> 6) &&& 0x3
        if pdf = 2 ∧ 5 ≤ hlen then
          let ptsb := sliceN p (ps + 9) (ps + 14)
          if ptsb.length = 5 then some (decode_pts_dts ptsb) else none
        else if pdf = 3 ∧ 10 ≤ hlen then
          let ptsb := sliceN p (ps + 9) (ps + 14)
          if ptsb.length = 5 then some (decode_pts_dts ptsb) else none
        else none

/-- Embeds `ts_utils.read_dts`: extract the DTS from a 188-byte TS packet, or
`none` when the packet has no readable DTS. -/
def read_dts (p : List Nat) : Option Nat :=
  if p.length ≠ 188 then none
  else if byteAt p 0 ≠ 0x47 then none
  else
    match findSeq p [0, 0, 1] (pesIndex p) with
    | none => none
    | some ps =>
      if 188 < ps + 14 + 5 then none
      else
        let flags := byteAt p (ps + 7)
        let pdf := (flags >>> 6) &&& 0x3
        if pdf = 3 then
          let dtsb := sliceN p (ps + 14) (ps + 19)
          if dtsb.length = 5 then some (decode_pts_dts dtsb) else none
        else none

/-- Embeds `ts_utils.write_pts`: overwrite the PTS field of a packet,
preserving marker and flag bits; packets without a readable PTS are returned
unchanged. -/
def write_pts (p : List Nat) (newPts : Int) : List Nat :=
  match read_pts p with
  | none => p
  | some _ =>
    match findSeq p [0, 0, 1] 0 with
    | none => p
    | some ps =>
      let origB := sliceN p (ps + 9) (ps + 14)
      let newB := encode_pts_dts_preserve newPts origB
      if origB == newB then p
      else setSlice p (ps + 9) newB

/-- Embeds `ts_utils.read_pcr`: read the PCR (base, extension) pair from a
packet adaptation field, or `none` when absent. -/
def read_pcr (p : List Nat) : Option (Nat × Nat) :=
  if p.length ≠ 188 then none
  else
    let afc := (byteAt p 3 >>> 4) &&& 0x3
    if ¬(afc = 2 ∨ afc = 3) then none
    else if byteAt p 4 < 7 then none
    else if byteAt p 5 &&& 0x10 = 0 then none
    else if byteAt p 10 &&& 0x7E ≠ 0x7E then none
    else
      let base := (byteAt p 6 <<< 25) ||| (byteAt p 7 <<< 17) |||
        (byteAt p 8 <<< 9) ||| (byteAt p 9 <<< 1) ||| (byteAt p 10 >>> 7)
      let ext := ((byteAt p 10 &&& 0x01) <<< 8) ||| byteAt p 11
      some (base, ext)

/-- Repeated `bytearray.insert(i, v)`, performed `n` times as in the
expansion loop of `ts_utils.write_pcr`. -/
def insertN (l : List Nat) (i : Nat) (v : Nat) : Nat → List Nat
  | 0 => l
  | k + 1 => insertN (l.insertIdx i v) i v k

/-- The `while len(modified) < 188: modified.append(0xFF)` stuffing loop of
`ts_utils.write_pcr`. -/
def stuffTo188 (l : List Nat) : List Nat :=
  l ++ List.replicate (188 - l.length) 0xFF

/-- Lines 533-548 of `ts_utils.write_pcr`: set the PCR flag and write the
six PCR bytes into a packet whose adaptation field is already long enough. -/
def pcrWriteBytes (m : List Nat) (b e : Int) : List Nat :=
  let m2 := m.set 5 (byteAt m 5 ||| 0x10)
  let m3 := ((((m2.set 6 (pyAnd (pyShr b 25) 8)).set 7
      (pyAnd (pyShr b 17) 8)).set 8 (pyAnd (pyShr b 9) 8)).set 9
      (pyAnd (pyShr b 1) 8)).set 10
      ((pyAnd b 1 <<< 7) ||| 0x7E ||| pyAnd (pyShr e 8) 1)
  m3.set 11 (pyAnd e 8)

/-- Lines 508-516 of `ts_utils.write_pcr`: promote a payload-only packet
(`af_ctrl == 1`) by setting the adaptation-field-control bits, inserting a
length byte and a flags byte, and stuffing with 0xFF up to 188 bytes. -/
def pcrPromote (p : List Nat) : List Nat :=
  stuffTo188
    (((p.set 3 ((byteAt p 3 &&& 0xCF) ||| 0x20)).insertIdx 4 0).insertIdx 5 0)

/-- Lines 519-531 of `ts_utils.write_pcr`: grow an adaptation field shorter
than 7 bytes by inserting 0xFF bytes after the flags byte, fixing the length
byte and trimming the packet back to 188 bytes. -/
def pcrEnsureAF7 (m0 : List Nat) : List Nat :=
  let afl := byteAt m0 4
  if afl < 7 then
    let m := (insertN m0 6 0xFF (7 - afl)).set 4 7
    if 188 < m.length then m.take 188 else m
  else m0

/-- Embeds `ts_utils.write_pcr` for a `(base, extension)` pair (the tuple
form of its `new_pcr` argument): write a PCR into the adaptation field,
creating or growing the field when needed. -/
def write_pcr (p : List Nat) (newPcr : Int × Int) : List Nat :=
  if p.length ≠ 188 then p
  else
    let afc0 := (byteAt p 3 >>> 4) &&& 0x3
    let m0 := if afc0 = 1 then pcrPromote p else p
    let afc := if afc0 = 1 then 3 else afc0
    if afc = 2 ∨ afc = 3 then pcrWriteBytes (pcrEnsureAF7 m0) newPcr.1 newPcr.2
    else p

/-- Embeds `ts_utils.shift_pts`: add `offset` to the PTS of a packet (plain
re-encode, flag bits 0b10), returning the packet unchanged when it has no
readable PTS or the shift is zero. -/
def shift_pts (p : List Nat) (offset : Int) : List Nat :=
  match read_pts p with
  | none => p
  | some pts =>
    let newPts : Int := (pts : Int) + offset
    if newPts = (pts : Int) then p
    else
      match findSeq p [0, 0, 1] 0 with
      | none => p
      | some ps => setSlice p (ps + 9) (encode_pts_dts newPts 2)

/-- Embeds `ts_utils.shift_dts`: add `offset` to the DTS of a packet,
re-encoding with the original marker bits. -/
def shift_dts (p : List Nat) (offset : Int) : List Nat :=
  match read_dts p with
  | none => p
  | some dts =>
    let newDts : Int := (dts : Int) + offset
    if newDts = (dts : Int) then p
    else
      match findSeq p [0, 0, 1] 0 with
      | none => p
      | some ps =>
        let origB := sliceN p (ps + 14) (ps + 19)
        let newB := encode_pts_dts_preserve newDts origB
        if origB == newB then p else setSlice p (ps + 14) newB

/-- Embeds `ts_utils.shift_pcr`: add `offset` to the PCR base of a packet. -/
def shift_pcr (p : List Nat) (offset : Int) : List Nat :=
  match read_pcr p with
  | none => p
  | some be => write_pcr p ((be.1 : Int) + offset, (be.2 : Int))

/-- Embeds `ts_utils.shift_ts_packet`: shift PTS, then DTS, then PCR of one
packet (each stage re-reads the packet produced by the previous one). -/
def shift_ts_packet (p : List Nat) (offset : Int) : List Nat :=
  let p1 := match read_pts p with | none => p | some _ => shift_pts p offset
  let p2 := match read_dts p1 with | none => p1 | some _ => shift_dts p1 offset
  match read_pcr p2 with | none => p2 | some _ => shift_pcr p2 offset

/-- Embeds `ts_utils.shift_segment`: shift every full 188-byte packet of a
segment and copy any non-aligned trailing bytes through unchanged (the Python
loop `range(0, len(segment) - 188 + 1, 188)` visits exactly
`len(segment) / 188` packet offsets). -/
def shift_segment (s : List Nat) (offset : Int) : List Nat :=
  let shifted := ((List.range (s.length / 188)).map
    (fun i => shift_ts_packet (sliceN s (i * 188) (i * 188 + 188)) offset)).flatten
  if s.length % 188 ≠ 0 then shifted ++ s.drop shifted.length else shifted

/-- Python dict lookup `d.get(k)` for the PID counter of
`ts_utils.is_valid_ts_segment`, with the dict modelled as an association
list. -/
def dGet (d : List (Nat × Nat)) (k : Nat) : Option Nat :=
  (d.find? (fun kv => kv.1 == k)).map (fun kv => kv.2)

/-- Python dict store `d[k] = v` (replace an existing key, else append). -/
def dSet (d : List (Nat × Nat)) (k v : Nat) : List (Nat × Nat) :=
  if d.any (fun kv => kv.1 == k) then
    d.map (fun kv => if kv.1 == k then (k, v) else kv)
  else d ++ [(k, v)]

/-- PID of a TS packet: `((pkt[1] & 0x1F) << 8) | pkt[2]`. -/
def tsPid (pkt : List Nat) : Nat := ((byteAt pkt 1 &&& 0x1F) <<< 8) ||| byteAt pkt 2

/-- The corruption test of `is_valid_ts_segment`:
`len(pkt) < 188 or pkt[0] != 0x47`. -/
def tsCorrupt (pkt : List Nat) : Bool :=
  decide (pkt.length < 188) || decide (byteAt pkt 0 ≠ 0x47)

/-- The "video-plausible PID" predicate of `is_valid_ts_segment`:
`pid == 256 or (0x100 <= pid <= 0x1FF)`. -/
def videoPid (pid : Nat) : Bool :=
  decide (pid = 256) || (decide (0x100 ≤ pid) && decide (pid ≤ 0x1FF))

/-- The first `total` 188-byte slices of a segment, i.e. the packets visited
by the loops `for i in range(0, total_packets * 188, 188)`. -/
def packetsOf (s : List Nat) (total : Nat) : List (List Nat) :=
  (List.range total).map (fun i => sliceN s (i * 188) (i * 188 + 188))

/-- One step of the first loop of `is_valid_ts_segment`: bump the sync count
and the per-PID packet counter unless the packet is corrupted. -/
def syncFold (acc : Nat × List (Nat × Nat)) (pkt : List Nat) :
    Nat × List (Nat × Nat) :=
  if tsCorrupt pkt then acc
  else (acc.1 + 1, dSet acc.2 (tsPid pkt) ((dGet acc.2 (tsPid pkt)).getD 0 + 1))

/-- `sum(pid_counter[pid] for pid in video_pids)` of `is_valid_ts_segment`. -/
def videoPidSum (d : List (Nat × Nat)) : Nat :=
  ((d.filter (fun kv => videoPid kv.1)).map (fun kv => kv.2)).sum

/-- The per-packet condition counted by the second loop of
`is_valid_ts_segment`: a non-corrupt packet on a video PID containing a
readable PTS (the source condition
`pts is not None and (dts is not None or dts is None)` collapses to
`pts is not None`). -/
def ptsValidPkt (pkt : List Nat) : Bool :=
  !tsCorrupt pkt && videoPid (tsPid pkt) && (read_pts pkt).isSome

/-- Embeds `ts_utils.is_valid_ts_segment`.  The sync threshold
`int(0.8 * total_packets)` is written `4 * total / 5`, and the majority
threshold `int(0.5 * sync_count)` is written `syncCount / 2`: for every
`total ≤ 20` the IEEE-754 products `0.8 * total` and `0.5 * sync` truncate to
exactly these integer values. -/
def is_valid_ts_segment (s : List Nat) : Bool :=
  if s.length < 188 then false
  else
    let total := min (s.length / 188) 20
    let pkts := packetsOf s total
    let sc := pkts.foldl syncFold (0, [])
    let syncCount := sc.1
    let minSync := max 3 (4 * total / 5)
    let hasValidSync := decide (minSync ≤ syncCount)
    let vCount := videoPidSum sc.2
    let majority := decide (syncCount / 2 ≤ vCount) && decide (0 < vCount)
    let ptsValid := pkts.countP ptsValidPkt
    hasValidSync && majority && decide (1 ≤ ptsValid)

/-- Count of non-corrupt packets among the first `total` packets (declarative
counterpart of the sync counter). -/
def syncCountOf (s : List Nat) (total : Nat) : Nat :=
  (packetsOf s total).countP (fun pkt => !tsCorrupt pkt)

/-- Count of non-corrupt packets carrying a video-plausible PID (declarative
counterpart of the PID-dictionary sum). -/
def videoCountOf (s : List Nat) (total : Nat) : Nat :=
  (packetsOf s total).countP (fun pkt => !tsCorrupt pkt && videoPid (tsPid pkt))

/-- The validity condition exactly as the claim states it (spec wording):
sync count at least `max(3, ⌈0.8 N⌉)`, video packets at least 50 percent of
the synced packets and at least one, and at least one video packet with a
parseable PTS. -/
def claimValidTS (s : List Nat) : Bool :=
  let total := min (s.length / 188) 20
  decide (188 ≤ s.length) &&
    decide (max 3 ((4 * total + 4) / 5) ≤ syncCountOf s total) &&
    decide (syncCountOf s total ≤ 2 * videoCountOf s total) &&
    decide (1 ≤ videoCountOf s total) &&
    decide (1 ≤ (packetsOf s total).countP ptsValidPkt)

/-- The validity condition with the thresholds the code actually computes:
`⌊0.8 N⌋` for the sync bound and `⌊sync/2⌋` for the video majority bound. -/
def amendedValidTS (s : List Nat) : Bool :=
  let total := min (s.length / 188) 20
  decide (188 ≤ s.length) &&
    decide (max 3 (4 * total / 5) ≤ syncCountOf s total) &&
    decide (syncCountOf s total / 2 ≤ videoCountOf s total) &&
    decide (1 ≤ videoCountOf s total) &&
    decide (1 ≤ (packetsOf s total).countP ptsValidPkt)

/-! Helper lemmas about byte access, list surgery, and Python int bit
operations, used throughout the proofs below. -/

theorem byteAt_lt_256 {l : List Nat} (h : ∀ x ∈ l, x < 256) (i : Nat) :
    byteAt l i < 256 := by
  rcases lt_or_le i l.length with hi | hi
  · have he : byteAt l i = l.get ⟨i, hi⟩ := by
      simp [byteAt, List.getD_eq_getElem?_getD, List.getElem?_eq_getElem hi]
    rw [he]
    exact h _ (List.get_mem l _ hi)
  · have he : byteAt l i = 0 := by
      simp [byteAt, List.getD_eq_getElem?_getD, List.getElem?_eq_none hi]
    omega

theorem byteAt_set (l : List Nat) (i j v : Nat) :
    byteAt (l.set i v) j = if i = j ∧ j < l.length then v else byteAt l j := by
  rcases eq_or_ne i j with rfl | hne
  · rcases lt_or_le i l.length with hi | hi
    · simp [byteAt, List.getD_eq_getElem?_getD, List.getElem?_set, hi]
    · rw [List.set_eq_of_length_le hi]
      simp [Nat.not_lt_of_le hi]
  · simp [byteAt, List.getD_eq_getElem?_getD, List.getElem?_set, hne]

theorem byteAt_take {l : List Nat} {n j : Nat} (h : j < n) :
    byteAt (l.take n) j = byteAt l j := by
  simp [byteAt, List.getD_eq_getElem?_getD, List.getElem?_take, h]

theorem byteAt_insertIdx_lt {l : List Nat} {i j : Nat} (v : Nat) (h : j < i) :
    byteAt (l.insertIdx i v) j = byteAt l j := by
  rcases le_or_lt i l.length with hi | hi
  · rcases lt_or_le j l.length with hj | hj
    · have h2 : j < (l.insertIdx i v).length := by
        rw [List.length_insertIdx i l hi]; omega
      rw [byteAt, byteAt, List.getD_eq_getElem?_getD, List.getD_eq_getElem?_getD,
        List.getElem?_eq_getElem h2, List.getElem?_eq_getElem hj]
      simp [List.getElem_insertIdx_of_lt l v i j h hj]
    · omega
  · rw [List.insertIdx_of_length_lt l v i hi]

theorem byteAt_insertIdx_self {l : List Nat} {i : Nat} (v : Nat)
    (h : i ≤ l.length) : byteAt (l.insertIdx i v) i = v := by
  have h2 : i < (l.insertIdx i v).length := by
    rw [List.length_insertIdx i l h]; omega
  rw [byteAt, List.getD_eq_getElem?_getD, List.getElem?_eq_getElem h2]
  simp [List.getElem_insertIdx_self l v i h]

theorem insertN_length {l : List Nat} {i : Nat} (v : Nat) (h : i ≤ l.length) :
    ∀ n, (insertN l i v n).length = l.length + n := by
  intro n
  induction n generalizing l with
  | zero => simp [insertN]
  | succ k ih =>
    rw [insertN, ih]
    · rw [List.length_insertIdx i l h]; omega
    · rw [List.length_insertIdx i l h]; omega

theorem byteAt_insertN_lt {l : List Nat} {i j : Nat} (v : Nat) (h : j < i) :
    ∀ n, byteAt (insertN l i v n) j = byteAt l j := by
  intro n
  induction n generalizing l with
  | zero => simp [insertN]
  | succ k ih => rw [insertN, ih, byteAt_insertIdx_lt v h]

theorem stuffTo188_of_ge {l : List Nat} (h : 188 ≤ l.length) :
    stuffTo188 l = l := by
  simp [stuffTo188, Nat.sub_eq_zero_of_le h]

theorem or_eq_add {a b : Nat} (i : Nat) (ha : a % 2 ^ i = 0) (hb : b < 2 ^ i) :
    a ||| b = a + b := by
  obtain ⟨c, rfl⟩ := Nat.dvd_of_mod_eq_zero ha
  exact (Nat.mul_add_lt_is_or hb c).symm

theorem pyShr_ofNat (n k : Nat) :
    pyShr ((n : Int)) k = ((n / 2 ^ k : Nat) : Int) := by
  have h2 : ((2 : Int) ^ k) = (((2 ^ k : Nat)) : Int) := by push_cast; rfl
  rw [pyShr, h2, ← Int.ofNat_fdiv]

theorem pyAnd_ofNat (n k : Nat) : pyAnd ((n : Int)) k = n % 2 ^ k := by
  rw [pyAnd]
  have h1 : ((n : Int)) % ((2 : Int) ^ k) = ((n % 2 ^ k : Nat) : Int) := by
    push_cast; rfl
  rw [h1, Int.toNat_natCast]

theorem pcrByte10 : ∀ u < 2, ∀ v < 2,
    ((u <<< 7 ||| 0x7E ||| v) >>> 7 = u ∧ (u <<< 7 ||| 0x7E ||| v) &&& 1 = v ∧
      (u <<< 7 ||| 0x7E ||| v) &&& 0x7E = 0x7E ∧
      u <<< 7 ||| 0x7E ||| v < 256) := by
  decide

theorem or16_and16 (x : Nat) : (x ||| 16) &&& 16 = 16 := by
  have h16 : (16 : Nat) = 2 ^ 4 := by norm_num
  rw [h16, Nat.and_two_pow]
  have ht : (x ||| 2 ^ 4).testBit 4 = true := by
    rw [Nat.testBit_lor]
    have h2 : Nat.testBit (2 ^ 4) 4 = true := by decide
    rw [h2, Bool.or_true]
  rw [ht]
  norm_num


theorem pcr_base_reassemble (b : Nat) (hb : b < 2 ^ 33) :
    (b / 33554432 % 256) <<< 25 ||| (b / 131072 % 256) <<< 17 |||
      (b / 512 % 256) <<< 9 ||| (b / 2 % 256) <<< 1 ||| b % 2 = b := by
  rw [Nat.shiftLeft_eq, Nat.shiftLeft_eq, Nat.shiftLeft_eq, Nat.shiftLeft_eq]
  have s1 : b / 33554432 % 256 * 2 ^ 25 ||| b / 131072 % 256 * 2 ^ 17 =
      b / 33554432 % 256 * 2 ^ 25 + b / 131072 % 256 * 2 ^ 17 :=
    or_eq_add 25 (by omega) (by omega)
  rw [s1]
  have s2 : b / 33554432 % 256 * 2 ^ 25 + b / 131072 % 256 * 2 ^ 17 |||
      b / 512 % 256 * 2 ^ 9 =
      b / 33554432 % 256 * 2 ^ 25 + b / 131072 % 256 * 2 ^ 17 +
        b / 512 % 256 * 2 ^ 9 :=
    or_eq_add 17 (by omega) (by omega)
  rw [s2]
  have s3 := or_eq_add (a := b / 33554432 % 256 * 2 ^ 25 +
      b / 131072 % 256 * 2 ^ 17 + b / 512 % 256 * 2 ^ 9)
      (b := b / 2 % 256 * 2 ^ 1) 9 (by omega) (by omega)
  rw [s3]
  have s4 := or_eq_add (a := b / 33554432 % 256 * 2 ^ 25 +
      b / 131072 % 256 * 2 ^ 17 + b / 512 % 256 * 2 ^ 9 + b / 2 % 256 * 2 ^ 1)
      (b := b % 2) 1 (by omega) (by omega)
  rw [s4]
  omega

theorem pcr_ext_reassemble (e : Nat) (he : e < 2 ^ 9) :
    (e / 256 % 2) <<< 8 ||| e % 256 = e := by
  rw [Nat.shiftLeft_eq]
  have s1 := or_eq_add (a := e / 256 % 2 * 2 ^ 8) (b := e % 256) 8
    (by omega) (by omega)
  rw [s1]
  omega

theorem read_pcr_pcrWriteBytes (m : List Nat) (b e : Nat) (hl : m.length = 188)
    (hb : b < 2 ^ 33) (he : e < 2 ^ 9)
    (h3 : (byteAt m 3 >>> 4) &&& 3 = 2 ∨ (byteAt m 3 >>> 4) &&& 3 = 3)
    (h4 : 7 ≤ byteAt m 4) :
    read_pcr (pcrWriteBytes m ((b : Int)) ((e : Int))) = some (b, e) ∧
      (pcrWriteBytes m ((b : Int)) ((e : Int))).length = 188 := by
  have hlr : (pcrWriteBytes m ((b : Int)) ((e : Int))).length = 188 := by
    simp [pcrWriteBytes, hl]
  refine ⟨?_, hlr⟩
  have h3r : byteAt (pcrWriteBytes m ((b : Int)) ((e : Int))) 3 = byteAt m 3 := by
    simp only [pcrWriteBytes, byteAt_set, List.length_set, hl]
    norm_num
  have h4r : byteAt (pcrWriteBytes m ((b : Int)) ((e : Int))) 4 = byteAt m 4 := by
    simp only [pcrWriteBytes, byteAt_set, List.length_set, hl]
    norm_num
  have h5v : byteAt (pcrWriteBytes m ((b : Int)) ((e : Int))) 5 =
      (byteAt m 5 ||| 0x10) := by
    simp only [pcrWriteBytes, byteAt_set, List.length_set, hl]
    norm_num
  have h6v : byteAt (pcrWriteBytes m ((b : Int)) ((e : Int))) 6 =
      b / 33554432 % 256 := by
    simp only [pcrWriteBytes, byteAt_set, List.length_set, hl, pyShr_ofNat,
      pyAnd_ofNat]
    norm_num
  have h7v : byteAt (pcrWriteBytes m ((b : Int)) ((e : Int))) 7 =
      b / 131072 % 256 := by
    simp only [pcrWriteBytes, byteAt_set, List.length_set, hl, pyShr_ofNat,
      pyAnd_ofNat]
    norm_num
  have h8v : byteAt (pcrWriteBytes m ((b : Int)) ((e : Int))) 8 =
      b / 512 % 256 := by
    simp only [pcrWriteBytes, byteAt_set, List.length_set, hl, pyShr_ofNat,
      pyAnd_ofNat]
    norm_num
  have h9v : byteAt (pcrWriteBytes m ((b : Int)) ((e : Int))) 9 =
      b / 2 % 256 := by
    simp only [pcrWriteBytes, byteAt_set, List.length_set, hl, pyShr_ofNat,
      pyAnd_ofNat]
    norm_num
  have h10v : byteAt (pcrWriteBytes m ((b : Int)) ((e : Int))) 10 =
      ((b % 2) <<< 7 ||| 0x7E ||| (e / 256 % 2)) := by
    simp only [pcrWriteBytes, byteAt_set, List.length_set, hl, pyShr_ofNat,
      pyAnd_ofNat]
    norm_num
  have h11v : byteAt (pcrWriteBytes m ((b : Int)) ((e : Int))) 11 =
      e % 256 := by
    simp only [pcrWriteBytes, byteAt_set, List.length_set, hl, pyAnd_ofNat]
    norm_num
  have hby := pcrByte10 (b % 2) (by omega) (e / 256 % 2) (by omega)
  rw [read_pcr]
  rw [if_neg (by rw [hlr]; norm_num)]
  simp only [h3r, h4r, h5v, h6v, h7v, h8v, h9v, h10v, h11v]
  rw [if_neg (by rcases h3 with h | h <;> rw [h] <;> norm_num)]
  rw [if_neg (by omega)]
  rw [if_neg (by rw [or16_and16]; norm_num)]
  rw [if_neg (by rw [hby.2.2.1]; norm_num)]
  rw [hby.1, hby.2.1]
  rw [pcr_base_reassemble b hb, pcr_ext_reassemble e he]

set_option maxRecDepth 4000 in
theorem afc1_promote : ∀ x < 256, ((((x &&& 0xCF) ||| 0x20) >>> 4) &&& 3) = 2 := by
  decide

theorem pcrEnsureAF7_spec (m0 : List Nat) (h1 : 188 ≤ m0.length)
    (h2 : byteAt m0 4 < 7 ∨ m0.length = 188) :
    (pcrEnsureAF7 m0).length = 188 ∧ byteAt (pcrEnsureAF7 m0) 3 = byteAt m0 3 ∧
      7 ≤ byteAt (pcrEnsureAF7 m0) 4 := by
  by_cases haf : byteAt m0 4 < 7
  · have hml : ((insertN m0 6 0xFF (7 - byteAt m0 4)).set 4 7).length =
        m0.length + (7 - byteAt m0 4) := by
      rw [List.length_set, insertN_length 0xFF (by omega)]
    have htk : 188 < ((insertN m0 6 0xFF (7 - byteAt m0 4)).set 4 7).length := by
      omega
    have hout : pcrEnsureAF7 m0 =
        ((insertN m0 6 0xFF (7 - byteAt m0 4)).set 4 7).take 188 := by
      rw [pcrEnsureAF7]
      simp only [if_pos haf, if_pos htk]
    rw [hout]
    have hi : (insertN m0 6 0xFF (7 - byteAt m0 4)).length =
        m0.length + (7 - byteAt m0 4) := insertN_length 0xFF (by omega) _
    refine ⟨by rw [List.length_take, hml]; omega, ?_, ?_⟩
    · rw [byteAt_take (by omega), byteAt_set, if_neg (by norm_num),
        byteAt_insertN_lt 0xFF (by omega)]
    · have hc : (4 : Nat) = 4 ∧
          4 < (insertN m0 6 0xFF (7 - byteAt m0 4)).length := ⟨rfl, by omega⟩
      rw [byteAt_take (by omega), byteAt_set, if_pos hc]
  · have hout : pcrEnsureAF7 m0 = m0 := by
      rw [pcrEnsureAF7]
      simp only [if_neg haf]
    rw [hout]
    exact ⟨by omega, rfl, by omega⟩

theorem pcrPromote_spec (p : List Nat) (hp : p.length = 188) :
    (pcrPromote p).length = 190 ∧
      byteAt (pcrPromote p) 3 = ((byteAt p 3 &&& 0xCF) ||| 0x20) ∧
      byteAt (pcrPromote p) 4 = 0 := by
  have hsetlen : (p.set 3 ((byteAt p 3 &&& 0xCF) ||| 0x20)).length = 188 := by
    simp [hp]
  have hi4 : ((p.set 3 ((byteAt p 3 &&& 0xCF) ||| 0x20)).insertIdx 4 0).length = 189 := by
    rw [List.length_insertIdx 4 _ (by omega), hsetlen]
  have hi5 : (((p.set 3 ((byteAt p 3 &&& 0xCF) ||| 0x20)).insertIdx 4 0).insertIdx 5 0).length = 190 := by
    rw [List.length_insertIdx 5 _ (by omega), hi4]
  have hout : pcrPromote p =
      ((p.set 3 ((byteAt p 3 &&& 0xCF) ||| 0x20)).insertIdx 4 0).insertIdx 5 0 := by
    rw [pcrPromote, stuffTo188_of_ge (by omega)]
  rw [hout]
  refine ⟨hi5, ?_, ?_⟩
  · rw [byteAt_insertIdx_lt 0 (by omega), byteAt_insertIdx_lt 0 (by omega),
      byteAt_set, if_pos (by omega)]
  · rw [byteAt_insertIdx_lt 0 (by omega), byteAt_insertIdx_self 0 (by omega)]

/-- C6 (amended): for every 188-byte TS packet `p` whose
adaptation-field-control bits are nonzero (the reserved value 0 makes
`write_pcr` return the packet unchanged, so no PCR can be read back), every
33-bit PCR base `b` and 9-bit extension `e`,
`read_pcr (write_pcr p (b, e))` returns `(b, e)` and the written packet is
still exactly 188 bytes long. -/
theorem C6_write_pcr_read_pcr_roundtrip (p : List Nat) (b e : Nat) (hp : p.length = 188)
    (hbytes : ∀ x ∈ p, x < 256) (hafc : (byteAt p 3 >>> 4) &&& 3 ≠ 0)
    (hb : b < 2 ^ 33) (he : e < 2 ^ 9) :
    read_pcr (write_pcr p (((b : Int)), ((e : Int)))) = some (b, e) ∧
      (write_pcr p (((b : Int)), ((e : Int)))).length = 188 := by
  have hle : (byteAt p 3 >>> 4) &&& 3 ≤ 3 := Nat.and_le_right
  have hnlen : ¬(p.length ≠ 188) := by rw [hp]; norm_num
  have hcases : (byteAt p 3 >>> 4) &&& 3 = 1 ∨ (byteAt p 3 >>> 4) &&& 3 = 2 ∨
      (byteAt p 3 >>> 4) &&& 3 = 3 := by omega
  rcases hcases with h1 | h2 | h3
  · obtain ⟨hq1, hq3, hq4⟩ := pcrPromote_spec p hp
    obtain ⟨he1, he3, he4⟩ := pcrEnsureAF7_spec (pcrPromote p) (by omega)
      (Or.inl (by omega))
    have hw : write_pcr p (((b : Int)), ((e : Int))) =
        pcrWriteBytes (pcrEnsureAF7 (pcrPromote p)) ((b : Int)) ((e : Int)) := by
      rw [write_pcr, if_neg hnlen]
      simp only [h1]
      norm_num
    rw [hw]
    apply read_pcr_pcrWriteBytes _ _ _ he1 hb he
    · rw [he3, hq3]
      left
      exact afc1_promote (byteAt p 3) (byteAt_lt_256 hbytes 3)
    · exact he4
  · obtain ⟨he1, he3, he4⟩ := pcrEnsureAF7_spec p (by omega) (Or.inr hp)
    have hw : write_pcr p (((b : Int)), ((e : Int))) =
        pcrWriteBytes (pcrEnsureAF7 p) ((b : Int)) ((e : Int)) := by
      rw [write_pcr, if_neg hnlen]
      simp only [h2]
      norm_num
    rw [hw]
    apply read_pcr_pcrWriteBytes _ _ _ he1 hb he
    · rw [he3, h2]
      exact Or.inl rfl
    · exact he4
  · obtain ⟨he1, he3, he4⟩ := pcrEnsureAF7_spec p (by omega) (Or.inr hp)
    have hw : write_pcr p (((b : Int)), ((e : Int))) =
        pcrWriteBytes (pcrEnsureAF7 p) ((b : Int)) ((e : Int)) := by
      rw [write_pcr, if_neg hnlen]
      simp only [h3]
      norm_num
    rw [hw]
    apply read_pcr_pcrWriteBytes _ _ _ he1 hb he
    · rw [he3, h3]
      exact Or.inr rfl
    · exact he4

/-- C6 (counterexample): the claim as stated fails for a 188-byte packet
whose adaptation-field-control bits are 0 (reserved): `write_pcr` returns it
unchanged and `read_pcr` then yields `none`, not `(1, 1)`. -/
theorem C6_pcr_roundtrip_cex :
    read_pcr (write_pcr (0x47 :: 0 :: 0 :: 0 :: List.replicate 184 0)
        ((1 : Int), (1 : Int))) = none ∧
      (0x47 :: 0 :: 0 :: 0 :: List.replicate 184 0 : List Nat).length = 188 := by
  constructor <;> decide

/-- C6 (witness): the amended round-trip theorem applied to a concrete
payload-only packet with base 12345 and extension 300. -/
theorem C6_write_pcr_read_pcr_roundtrip_witness :
    ([0x47, 0, 0x64, 0x10] ++ List.replicate 184 0x11 : List Nat).length = 188 ∧
      (∀ x ∈ ([0x47, 0, 0x64, 0x10] ++ List.replicate 184 0x11 : List Nat),
        x < 256) ∧
      (byteAt ([0x47, 0, 0x64, 0x10] ++ List.replicate 184 0x11) 3 >>> 4) &&&
        3 ≠ 0 ∧
      (12345 : Nat) < 2 ^ 33 ∧ (300 : Nat) < 2 ^ 9 ∧
      (read_pcr (write_pcr ([0x47, 0, 0x64, 0x10] ++ List.replicate 184 0x11)
          (((12345 : Nat) : Int), ((300 : Nat) : Int))) = some (12345, 300) ∧
        (write_pcr ([0x47, 0, 0x64, 0x10] ++ List.replicate 184 0x11)
          (((12345 : Nat) : Int), ((300 : Nat) : Int))).length = 188) :=
  ⟨by decide, by decide, by decide, by decide, by decide,
    C6_write_pcr_read_pcr_roundtrip _ 12345 300 (by decide) (by decide)
      (by decide) (by decide) (by decide)⟩

/-- C10: `write_pts` returns its input unchanged whenever `read_pts` finds no
readable PTS in it (wrong length, bad sync byte, missing PES start code, or
unsuitable flags), for every replacement value. -/
theorem C10_write_pts_no_pts_identity (p : List Nat) (v : Int)
    (h : read_pts p = none) : write_pts p v = p := by
  unfold write_pts
  rw [h]

/-- C10 (witness): a packet with a wrong sync byte has no readable PTS and is
returned unchanged by `write_pts`. -/
theorem C10_write_pts_no_pts_identity_witness :
    read_pts (List.replicate 188 0) = none ∧
      write_pts (List.replicate 188 0) 7 = List.replicate 188 0 :=
  ⟨by decide, C10_write_pts_no_pts_identity _ 7 (by decide)⟩


theorem and_mask_mod (x k : Nat) : x &&& (2 ^ k - 1) = x % 2 ^ k :=
  Nat.and_pow_two_sub_one_eq_mod x k

theorem and7_mod (x : Nat) : x &&& 7 = x % 8 := by
  have := and_mask_mod x 3; norm_num at this; exact this

theorem and127_mod (x : Nat) : x &&& 127 = x % 128 := by
  have := and_mask_mod x 7; norm_num at this; exact this

theorem shr_div (x k : Nat) : x >>> k = x / 2 ^ k := Nat.shiftRight_eq_div_pow x k

theorem decode_sum (b0 b1 b2 b3 b4 : Nat) (h1 : b1 < 256) (h3 : b3 < 256) :
    decode_pts_dts [b0, b1, b2, b3, b4] =
      (b0 / 2 % 8) * 1073741824 + b1 * 4194304 + (b2 / 2 % 128) * 32768 +
        b3 * 128 + (b4 / 2 % 128) := by
  have hb : byteAt [b0, b1, b2, b3, b4] 0 = b0 := rfl
  rw [decode_pts_dts]
  simp only [byteAt, List.getD]
  norm_num
  rw [shr_div, shr_div, shr_div, and7_mod, and127_mod, and127_mod]
  rw [Nat.shiftLeft_eq, Nat.shiftLeft_eq, Nat.shiftLeft_eq, Nat.shiftLeft_eq]
  norm_num
  have s1 : b1 * 4194304 ||| b2 / 2 % 128 * 32768 =
      b1 * 4194304 + b2 / 2 % 128 * 32768 := or_eq_add 22 (by omega) (by omega)
  rw [s1]
  have s2 : b1 * 4194304 + b2 / 2 % 128 * 32768 ||| b3 * 128 =
      b1 * 4194304 + b2 / 2 % 128 * 32768 + b3 * 128 :=
    or_eq_add 15 (by omega) (by omega)
  rw [s2]
  have s3 : b1 * 4194304 + b2 / 2 % 128 * 32768 + b3 * 128 ||| b4 / 2 % 128 =
      b1 * 4194304 + b2 / 2 % 128 * 32768 + b3 * 128 + b4 / 2 % 128 :=
    or_eq_add 7 (by omega) (by omega)
  rw [s3]
  have s4 := or_eq_add (a := b0 / 2 % 8 * 1073741824)
    (b := b1 * 4194304 + b2 / 2 % 128 * 32768 + b3 * 128 + b4 / 2 % 128) 30
    (by omega) (by omega)
  rw [s4]
  omega



set_option maxRecDepth 100000 in
theorem byte_id_b0 : ∀ x < 256, (x &&& 0xF0) ||| ((x / 2 % 8) <<< 1) ||| (x % 2) = x := by
  decide

set_option maxRecDepth 100000 in
theorem byte_id_marker : ∀ x < 256, (x % 2) ||| ((x / 2 % 128) <<< 1) = x := by
  decide

theorem encode_preserve_decode (b0 b1 b2 b3 b4 : Nat) (h0 : b0 < 256)
    (h1 : b1 < 256) (h2 : b2 < 256) (h3 : b3 < 256) (h4 : b4 < 256) :
    encode_pts_dts_preserve (((decode_pts_dts [b0, b1, b2, b3, b4] : Nat) : Int))
      [b0, b1, b2, b3, b4] = [b0, b1, b2, b3, b4] := by
  have hsum := decode_sum b0 b1 b2 b3 b4 h1 h3
  rw [encode_pts_dts_preserve, if_neg (by norm_num)]
  simp only [byteAt, List.getD]
  norm_num
  rw [hsum]
  set v := (b0 / 2 % 8) * 1073741824 + b1 * 4194304 + (b2 / 2 % 128) * 32768 +
    b3 * 128 + (b4 / 2 % 128) with hv
  have c30 : pyAnd (pyShr ((v : Int)) 30) 3 = b0 / 2 % 8 := by
    rw [pyShr_ofNat, pyAnd_ofNat]
    omega
  have c22 : pyAnd (pyShr ((v : Int)) 22) 8 = b1 := by
    rw [pyShr_ofNat, pyAnd_ofNat]
    omega
  have c15 : pyAnd (pyShr ((v : Int)) 15) 7 = b2 / 2 % 128 := by
    rw [pyShr_ofNat, pyAnd_ofNat]
    omega
  have c7 : pyAnd (pyShr ((v : Int)) 7) 8 = b3 := by
    rw [pyShr_ofNat, pyAnd_ofNat]
    omega
  have c0 : pyAnd ((v : Int)) 7 = b4 / 2 % 128 := by
    rw [pyAnd_ofNat]
    omega
  rw [c30, c22, c15, c7, c0]
  have e0 := byte_id_b0 b0 h0
  have e2 := byte_id_marker b2 h2
  have e4 := byte_id_marker b4 h4
  rw [e0, e2, e4]
  exact ⟨rfl, rfl, rfl, rfl, rfl⟩



theorem read_pts_some {p : List Nat} {v : Nat} (h : read_pts p = some v) :
    ∃ ps, findSeq p [0, 0, 1] (pesIndex p) = some ps ∧ ps + 14 ≤ 188 ∧
      (sliceN p (ps + 9) (ps + 14)).length = 5 ∧
      v = decode_pts_dts (sliceN p (ps + 9) (ps + 14)) := by
  unfold read_pts at h
  split at h
  · simp at h
  · split at h
    · simp at h
    · split at h
      · simp at h
      · rename_i ps heq
        split at h
        · simp at h
        · dsimp only at h
          split at h
          · split at h
            · refine ⟨ps, heq, by omega, by assumption, ?_⟩
              simp only [Option.some_inj] at h
              omega
            · simp at h
          · split at h
            · split at h
              · refine ⟨ps, heq, by omega, by assumption, ?_⟩
                simp only [Option.some_inj] at h
                omega
              · simp at h
            · simp at h



/-- C7 (amended): for every byte-valued packet `p` with a readable PTS `v`,
`write_pts p v` returns `p` byte-for-byte provided the PES start code found
from offset 0 (used by `write_pts`) is the one found after the adaptation
field (used by `read_pts`).  Without that proviso a spurious `00 00 01` in
the header region makes `write_pts` patch the wrong offset. -/
theorem C7_write_pts_same_pts_identity (p : List Nat) (v : Nat)
    (hbytes : ∀ x ∈ p, x < 256) (hpts : read_pts p = some v)
    (hfind : findSeq p [0, 0, 1] 0 = findSeq p [0, 0, 1] (pesIndex p)) :
    write_pts p ((v : Int)) = p := by
  obtain ⟨ps, hf, hb, hlen5, hdec⟩ := read_pts_some hpts
  have hsub : ∀ x ∈ sliceN p (ps + 9) (ps + 14), x < 256 := by
    intro x hx
    exact hbytes x (List.drop_subset _ _ (List.take_subset _ _ hx))
  rw [write_pts, hpts, hfind, hf]
  rcases hs : sliceN p (ps + 9) (ps + 14) with _ | ⟨c0, _ | ⟨c1, _ | ⟨c2, _ | ⟨c3, _ | ⟨c4, rest⟩⟩⟩⟩⟩ <;>
    rw [hs] at hlen5 <;> simp at hlen5
  subst hlen5
  have hv : v = decode_pts_dts [c0, c1, c2, c3, c4] := by rw [hdec, hs]
  have henc : encode_pts_dts_preserve ((v : Int)) [c0, c1, c2, c3, c4] =
      [c0, c1, c2, c3, c4] := by
    rw [hv]
    refine encode_preserve_decode c0 c1 c2 c3 c4 ?_ ?_ ?_ ?_ ?_ <;>
      refine hsub _ ?_ <;> rw [hs] <;> simp
  dsimp only
  rw [hs, henc]
  simp



/-- The packet of the C7 counterexample: a spurious `00 00 01` sits at offset
1 (inside the TS header region), while the real PES header with a readable
PTS of 0 starts at offset 4. -/
def pktEarlyStart : List Nat :=
  [0x47, 0, 0, 1, 0, 0, 1, 0, 0, 0, 0xFF, 0x80, 0x05, 0x21, 0x00, 0x01,
    0x00, 0x01] ++ List.replicate 170 0

/-- C7 (counterexample): `pktEarlyStart` contains a readable PTS (value 0),
yet `write_pts` with that same value does not return the packet unchanged:
`find` from offset 0 locates the spurious start code and patches bytes inside
the header. -/
theorem C7_write_pts_cex :
    read_pts pktEarlyStart = some 0 ∧
      write_pts pktEarlyStart ((0 : Int)) ≠ pktEarlyStart := by
  constructor <;> decide

/-- C7 (witness): the amended theorem applied to a well-formed packet whose
first `00 00 01` is the real PES start code. -/
theorem C7_write_pts_same_pts_identity_witness :
    (∀ x ∈ ([0x47, 0x01, 0x00, 0x10, 0, 0, 1, 0, 0, 0, 0, 0x80, 0x05, 0x21,
        0x00, 0x01, 0x00, 0x01] ++ List.replicate 170 0 : List Nat), x < 256) ∧
      read_pts ([0x47, 0x01, 0x00, 0x10, 0, 0, 1, 0, 0, 0, 0, 0x80, 0x05,
        0x21, 0x00, 0x01, 0x00, 0x01] ++ List.replicate 170 0) = some 0 ∧
      findSeq ([0x47, 0x01, 0x00, 0x10, 0, 0, 1, 0, 0, 0, 0, 0x80, 0x05, 0x21,
          0x00, 0x01, 0x00, 0x01] ++ List.replicate 170 0) [0, 0, 1] 0 =
        findSeq ([0x47, 0x01, 0x00, 0x10, 0, 0, 1, 0, 0, 0, 0, 0x80, 0x05,
          0x21, 0x00, 0x01, 0x00, 0x01] ++ List.replicate 170 0) [0, 0, 1]
          (pesIndex ([0x47, 0x01, 0x00, 0x10, 0, 0, 1, 0, 0, 0, 0, 0x80, 0x05,
            0x21, 0x00, 0x01, 0x00, 0x01] ++ List.replicate 170 0)) ∧
      write_pts ([0x47, 0x01, 0x00, 0x10, 0, 0, 1, 0, 0, 0, 0, 0x80, 0x05,
          0x21, 0x00, 0x01, 0x00, 0x01] ++ List.replicate 170 0)
        (((0 : Nat) : Int)) =
        ([0x47, 0x01, 0x00, 0x10, 0, 0, 1, 0, 0, 0, 0, 0x80, 0x05, 0x21,
          0x00, 0x01, 0x00, 0x01] ++ List.replicate 170 0) :=
  ⟨by decide, by decide, by decide,
    C7_write_pts_same_pts_identity _ 0 (by decide) (by decide) (by decide)⟩


theorem findSeqGo_some_spec (pat : List Nat) :
    ∀ (l : List Nat) (j r : Nat), findSeqGo pat l j = some r →
      j ≤ r ∧ pat.isPrefixOf (l.drop (r - j)) = true := by
  intro l
  induction l with
  | nil =>
    intro j r h
    rw [findSeqGo] at h
    split at h
    · rename_i hp
      cases h
      simpa using hp
    · cases h
  | cons x t ih =>
    intro j r h
    rw [findSeqGo] at h
    split at h
    · rename_i hp
      cases h
      simpa using hp
    · obtain ⟨h1, h2⟩ := ih (j + 1) r h
      refine ⟨by omega, ?_⟩
      have hd : (x :: t).drop (r - j) = t.drop (r - (j + 1)) := by
        have hrj : r - j = (r - (j + 1)) + 1 := by omega
        rw [hrj]
        rfl
      rw [hd]
      exact h2

theorem findSeqGo_min (pat : List Nat) :
    ∀ (l : List Nat) (j k : Nat), pat.isPrefixOf (l.drop k) = true →
      ∃ r, findSeqGo pat l j = some r ∧ r ≤ j + k := by
  intro l
  induction l with
  | nil =>
    intro j k h
    rw [List.drop_nil] at h
    exact ⟨j, by rw [findSeqGo, if_pos h], by omega⟩
  | cons x t ih =>
    intro j k h
    by_cases hp : pat.isPrefixOf (x :: t) = true
    · exact ⟨j, by rw [findSeqGo, if_pos hp], by omega⟩
    · have hk : k ≠ 0 := by
        intro hk0
        rw [hk0, List.drop_zero] at h
        exact hp h
      obtain ⟨k2, rfl⟩ : ∃ k2, k = k2 + 1 := ⟨k - 1, by omega⟩
      have hdrop : (x :: t).drop (k2 + 1) = t.drop k2 := rfl
      rw [hdrop] at h
      obtain ⟨r, hr, hle⟩ := ih (j + 1) k2 h
      refine ⟨r, ?_, by omega⟩
      rw [findSeqGo, if_neg hp]
      exact hr

theorem findSeq_some_spec {l pat : List Nat} {s r : Nat}
    (h : findSeq l pat s = some r) :
    s ≤ r ∧ pat.isPrefixOf (l.drop r) = true := by
  obtain ⟨h1, h2⟩ := findSeqGo_some_spec pat (l.drop s) s r h
  refine ⟨h1, ?_⟩
  rw [List.drop_drop] at h2
  have he : s + (r - s) = r := by omega
  rw [he] at h2
  exact h2

theorem findSeq_zero_le {l pat : List Nat} {k : Nat}
    (h : pat.isPrefixOf (l.drop k) = true) :
    ∃ r, findSeq l pat 0 = some r ∧ r ≤ k := by
  obtain ⟨r, hr, hle⟩ := findSeqGo_min pat l 0 k (by simpa using h)
  exact ⟨r, by rw [findSeq, List.drop_zero]; exact hr, by omega⟩

theorem isPrefixOf_length_le {pat l : List Nat} (h : pat.isPrefixOf l = true) :
    pat.length ≤ l.length := by
  rw [List.isPrefixOf_iff_prefix] at h
  exact h.length_le



theorem encode_pts_dts_length (v : Int) (f : Nat) :
    (encode_pts_dts v f).length = 5 := rfl

theorem encode_pts_dts_preserve_length (v : Int) (orig : List Nat) :
    (encode_pts_dts_preserve v orig).length = 5 := by
  rw [encode_pts_dts_preserve]
  split
  · rfl
  · rfl

theorem setSlice_length {l bs : List Nat} {a : Nat}
    (h : a + bs.length ≤ l.length) : (setSlice l a bs).length = l.length := by
  rw [setSlice]
  simp only [List.length_append, List.length_take, List.length_drop]
  omega

theorem read_dts_some {p : List Nat} {v : Nat} (h : read_dts p = some v) :
    ∃ ps, findSeq p [0, 0, 1] (pesIndex p) = some ps ∧ ps + 19 ≤ 188 := by
  unfold read_dts at h
  split at h
  · simp at h
  · split at h
    · simp at h
    · split at h
      · simp at h
      · rename_i ps heq
        split at h
        · simp at h
        · exact ⟨ps, heq, by omega⟩

theorem shift_pts_length {p : List Nat} (off : Int) (hp : p.length = 188) :
    (shift_pts p off).length = 188 := by
  rw [shift_pts]
  rcases hr : read_pts p with _ | v
  · exact hp
  · obtain ⟨ps, hf, hb, _, _⟩ := read_pts_some hr
    dsimp only
    split
    · exact hp
    · rcases h0 : findSeq p [0, 0, 1] 0 with _ | j0
      · exact hp
      · obtain ⟨hocc1, hocc2⟩ := findSeq_some_spec hf
        obtain ⟨r, hr0, hrle⟩ := findSeq_zero_le hocc2
        rw [h0] at hr0
        cases hr0
        rw [setSlice_length]
        · exact hp
        · rw [encode_pts_dts_length]
          omega

theorem shift_dts_length {p : List Nat} (off : Int) (hp : p.length = 188) :
    (shift_dts p off).length = 188 := by
  rw [shift_dts]
  rcases hr : read_dts p with _ | v
  · exact hp
  · obtain ⟨ps, hf, hb⟩ := read_dts_some hr
    dsimp only
    split
    · exact hp
    · rcases h0 : findSeq p [0, 0, 1] 0 with _ | j0
      · exact hp
      · obtain ⟨hocc1, hocc2⟩ := findSeq_some_spec hf
        obtain ⟨r, hr0, hrle⟩ := findSeq_zero_le hocc2
        rw [h0] at hr0
        cases hr0
        dsimp only
        split
        · exact hp
        · rw [setSlice_length]
          · exact hp
          · rw [encode_pts_dts_preserve_length]
            omega

theorem sum_map_const_nat {α : Type} (l : List α) (b : Nat) :
    (l.map (fun _ => b)).sum = l.length * b := by
  induction l with
  | nil => simp
  | cons x t ih => simp [ih]; ring

theorem pcrWriteBytes_length (m : List Nat) (b e : Int) :
    (pcrWriteBytes m b e).length = m.length := by
  simp [pcrWriteBytes]

theorem write_pcr_length {p : List Nat} (x : Int × Int) (hp : p.length = 188) :
    (write_pcr p x).length = 188 := by
  rw [write_pcr, if_neg (by rw [hp]; norm_num)]
  have hle : (byteAt p 3 >>> 4) &&& 3 ≤ 3 := Nat.and_le_right
  rcases hc : (byteAt p 3 >>> 4) &&& 3 with _ | _ | _ | _
  · norm_num [hc]
    exact hp
  · obtain ⟨hq1, hq3, hq4⟩ := pcrPromote_spec p hp
    obtain ⟨he1, _, _⟩ := pcrEnsureAF7_spec (pcrPromote p) (by omega)
      (Or.inl (by omega))
    norm_num [hc, pcrWriteBytes_length, he1]
  · obtain ⟨he1, _, _⟩ := pcrEnsureAF7_spec p (by omega) (Or.inr hp)
    norm_num [hc, pcrWriteBytes_length, he1]
  · rename_i n
    have hn : n = 0 := by omega
    subst hn
    obtain ⟨he1, _, _⟩ := pcrEnsureAF7_spec p (by omega) (Or.inr hp)
    norm_num [hc, pcrWriteBytes_length, he1]

theorem shift_pcr_length {p : List Nat} (off : Int) (hp : p.length = 188) :
    (shift_pcr p off).length = 188 := by
  rw [shift_pcr]
  rcases read_pcr p with _ | be
  · exact hp
  · exact write_pcr_length _ hp

theorem shift_ts_packet_length {p : List Nat} (off : Int) (hp : p.length = 188) :
    (shift_ts_packet p off).length = 188 := by
  rw [shift_ts_packet]
  have h1 : ∀ q : List Nat, q.length = 188 →
      ((match read_pts q with | none => q | some _ => shift_pts q off) : List Nat).length = 188 := by
    intro q hq
    rcases read_pts q with _ | v
    · exact hq
    · exact shift_pts_length off hq
  have h2 : ∀ q : List Nat, q.length = 188 →
      ((match read_dts q with | none => q | some _ => shift_dts q off) : List Nat).length = 188 := by
    intro q hq
    rcases read_dts q with _ | v
    · exact hq
    · exact shift_dts_length off hq
  have h3 : ∀ q : List Nat, q.length = 188 →
      ((match read_pcr q with | none => q | some _ => shift_pcr q off) : List Nat).length = 188 := by
    intro q hq
    rcases read_pcr q with _ | be
    · exact hq
    · exact shift_pcr_length off hq
  exact h3 _ (h2 _ (h1 _ hp))

/-- C9: `shift_segment` preserves the byte length of every segment, for every
(possibly negative) timestamp offset, whether or not the segment length is a
multiple of 188. -/
theorem C9_shift_segment_length (s : List Nat) (off : Int) :
    (shift_segment s off).length = s.length := by
  rw [shift_segment]
  have hpkt : ∀ i < s.length / 188,
      (shift_ts_packet (sliceN s (i * 188) (i * 188 + 188)) off).length = 188 := by
    intro i hi
    apply shift_ts_packet_length
    rw [sliceN]
    simp only [List.length_take, List.length_drop]
    have : (i + 1) * 188 ≤ s.length := by
      have := Nat.lt_of_lt_of_le hi (Nat.le_refl _)
      have h2 : i + 1 ≤ s.length / 188 := hi
      calc (i + 1) * 188 ≤ s.length / 188 * 188 :=
            Nat.mul_le_mul_right 188 h2
        _ ≤ s.length := Nat.div_mul_le_self _ _
    omega
  have hflat : (((List.range (s.length / 188)).map
      (fun i => shift_ts_packet (sliceN s (i * 188) (i * 188 + 188)) off)).flatten).length =
      s.length / 188 * 188 := by
    rw [List.length_flatten]
    rw [List.map_map]
    have hmap : ((List.range (s.length / 188)).map
        (List.length ∘ fun i => shift_ts_packet (sliceN s (i * 188) (i * 188 + 188)) off)) =
        (List.range (s.length / 188)).map (fun _ => 188) := by
      apply List.map_congr_left
      intro i hi
      rw [List.mem_range] at hi
      exact hpkt i hi
    rw [hmap, sum_map_const_nat]
    simp
  split
  · simp only [List.length_append, hflat, List.length_drop]
    have := Nat.div_mul_le_self s.length 188
    omega
  · rename_i hmod
    rw [hflat]
    have hdvd : s.length % 188 = 0 := by omega
    omega


theorem videoPidSum_nil : videoPidSum [] = 0 := rfl

theorem videoPidSum_cons (k v : Nat) (t : List (Nat × Nat)) :
    videoPidSum ((k, v) :: t) =
      (if videoPid k then v else 0) + videoPidSum t := by
  rw [videoPidSum, videoPidSum]
  by_cases h : videoPid k
  · simp [List.filter_cons, h]
  · simp [List.filter_cons, h]

theorem dGet_cons_ne {k0 v0 k : Nat} {t : List (Nat × Nat)} (h : k0 ≠ k) :
    dGet ((k0, v0) :: t) k = dGet t k := by
  have hb : (k0 == k) = false := by simp [h]
  simp [dGet, List.find?, hb]

theorem dGet_cons_eq {k v0 : Nat} {t : List (Nat × Nat)} :
    dGet ((k, v0) :: t) k = some v0 := by
  simp [dGet, List.find?]

theorem dSet_cons_ne {k0 v0 k v : Nat} {t : List (Nat × Nat)} (h : k0 ≠ k) :
    dSet ((k0, v0) :: t) k v = (k0, v0) :: dSet t k v := by
  rw [dSet, dSet]
  by_cases ha : t.any (fun kv => kv.1 == k)
  · rw [if_pos (by simp [ha, h])]
    rw [if_pos ha]
    simp [h]
  · rw [if_neg (by simp [ha, h])]
    rw [if_neg ha]
    rfl

theorem keys_dSet (d : List (Nat × Nat)) (k v : Nat) :
    (dSet d k v).map Prod.fst = if d.any (fun kv => kv.1 == k)
      then d.map Prod.fst else d.map Prod.fst ++ [k] := by
  rw [dSet]
  by_cases ha : d.any (fun kv => kv.1 == k)
  · rw [if_pos ha, if_pos ha, List.map_map]
    apply List.map_congr_left
    intro kv _
    by_cases hk : kv.1 = k
    · simp [hk]
    · simp [hk]
  · rw [if_neg ha, if_neg ha]
    simp

theorem nodup_keys_dSet {d : List (Nat × Nat)} (k v : Nat)
    (h : (d.map Prod.fst).Nodup) : ((dSet d k v).map Prod.fst).Nodup := by
  rw [keys_dSet]
  by_cases ha : d.any (fun kv => kv.1 == k)
  · rw [if_pos ha]; exact h
  · rw [if_neg ha]
    have hk : k ∉ d.map Prod.fst := by
      intro hmem
      apply ha
      rw [List.any_eq_true]
      obtain ⟨kv, hkv, hfst⟩ := List.mem_map.mp hmem
      exact ⟨kv, hkv, by simp [hfst]⟩
    simp [List.nodup_append, h, hk]

theorem videoPidSum_dSet (d : List (Nat × Nat)) (k : Nat)
    (h : (d.map Prod.fst).Nodup) :
    videoPidSum (dSet d k ((dGet d k).getD 0 + 1)) =
      videoPidSum d + (if videoPid k then 1 else 0) := by
  induction d with
  | nil =>
    have h1 : dSet [] k ((dGet [] k).getD 0 + 1) = [(k, 1)] := rfl
    rw [h1, videoPidSum_cons, videoPidSum_nil]
    by_cases hv : videoPid k <;> simp [hv]
  | cons kv t ih =>
    obtain ⟨k0, v0⟩ := kv
    by_cases hk : k0 = k
    · subst hk
      rw [dGet_cons_eq]
      have hset : dSet ((k0, v0) :: t) k0 ((some v0).getD 0 + 1) =
          (k0, v0 + 1) :: t.map (fun kv => if kv.1 = k0 then (k0, v0 + 1) else kv) := by
        rw [dSet, if_pos (by simp)]
        simp
      have htid : t.map (fun kv => if kv.1 = k0 then (k0, v0 + 1) else kv) = t := by
        have hstep : ∀ kv ∈ t,
            (if kv.1 = k0 then ((k0, v0 + 1) : Nat × Nat) else kv) = id kv := by
          intro kv hkv
          have hne : kv.1 ≠ k0 := by
            simp only [List.map_cons, List.nodup_cons] at h
            intro hcontra
            exact h.1 (List.mem_map.mpr ⟨kv, hkv, hcontra⟩)
          rw [if_neg hne]
          rfl
        rw [List.map_congr_left hstep, List.map_id]
      rw [hset, htid, videoPidSum_cons, videoPidSum_cons]
      by_cases hv : videoPid k0 <;> simp [hv] <;> omega
    · rw [dGet_cons_ne hk, dSet_cons_ne hk]
      rw [videoPidSum_cons, videoPidSum_cons]
      have hn : (t.map Prod.fst).Nodup := by
        simp only [List.map_cons, List.nodup_cons] at h
        exact h.2
      rw [ih hn]
      omega



theorem syncFold_spec : ∀ (l : List (List Nat)) (c : Nat) (d : List (Nat × Nat)),
    (d.map Prod.fst).Nodup →
    (l.foldl syncFold (c, d)).1 = c + l.countP (fun pkt => !tsCorrupt pkt) ∧
      videoPidSum (l.foldl syncFold (c, d)).2 =
        videoPidSum d + l.countP (fun pkt => !tsCorrupt pkt && videoPid (tsPid pkt)) ∧
      ((l.foldl syncFold (c, d)).2.map Prod.fst).Nodup := by
  intro l
  induction l with
  | nil => intro c d hd; simp [hd]
  | cons pkt t ih =>
    intro c d hd
    rw [List.foldl_cons]
    by_cases hc : tsCorrupt pkt
    · have hstep : syncFold (c, d) pkt = (c, d) := by rw [syncFold, if_pos hc]
      rw [hstep]
      obtain ⟨ha, hb, hn⟩ := ih c d hd
      refine ⟨?_, ?_, hn⟩
      · rw [ha, List.countP_cons]
        simp [hc]
      · rw [hb, List.countP_cons]
        simp [hc]
    · have hstep : syncFold (c, d) pkt =
          (c + 1, dSet d (tsPid pkt) ((dGet d (tsPid pkt)).getD 0 + 1)) := by
        rw [syncFold, if_neg hc]
      rw [hstep]
      have hn2 : ((dSet d (tsPid pkt) ((dGet d (tsPid pkt)).getD 0 + 1)).map
          Prod.fst).Nodup := nodup_keys_dSet _ _ hd
      obtain ⟨ha, hb, hn⟩ := ih (c + 1) _ hn2
      refine ⟨?_, ?_, hn⟩
      · rw [ha, List.countP_cons]
        simp [hc]
        omega
      · rw [hb, videoPidSum_dSet d (tsPid pkt) hd, List.countP_cons]
        by_cases hv : videoPid (tsPid pkt) <;> simp [hc, hv] <;> omega

/-- C4 (amended): `is_valid_ts_segment` returns `true` exactly when, over the
first `N = min(len/188, 20)` packets, the sync count is at least
`max(3, ⌊0.8 N⌋)`, the video-PID packets number at least `⌊sync/2⌋` and at
least one, and at least one video packet has a parseable PTS (the thresholds
use Python `int()` truncation, not ceiling, and the majority bound is the
floor of half the sync count, not a true 50 percent). -/
theorem C4_is_valid_ts_iff (s : List Nat) :
    is_valid_ts_segment s = true ↔ amendedValidTS s = true := by
  rw [is_valid_ts_segment, amendedValidTS]
  by_cases hlen : s.length < 188
  · rw [if_pos hlen]
    simp [hlen, Nat.not_le_of_lt hlen]
  · rw [if_neg hlen]
    obtain ⟨ha, hb, _⟩ := syncFold_spec (packetsOf s (min (s.length / 188) 20)) 0 []
      (by simp)
    rw [videoPidSum_nil] at hb
    dsimp only
    rw [ha, hb]
    rw [syncCountOf, videoCountOf]
    simp only [Bool.and_eq_true, decide_eq_true_eq]
    constructor
    · rintro ⟨⟨h1, h2, h3⟩, h4⟩
      exact ⟨⟨⟨⟨by omega, by omega⟩, by omega⟩, by omega⟩, by omega⟩
    · rintro ⟨⟨⟨⟨h1, h2⟩, h3⟩, h4⟩, h5⟩
      exact ⟨⟨by omega, by omega, by omega⟩, by omega⟩



/-- The segment of the C4 counterexample: five sync packets, of which two
carry a video PID (one with a valid PTS) and three carry PID 0x20. -/
def segFiveTwoVideo : List Nat :=
  ([0x47, 0x01, 0x00, 0x10, 0, 0, 1, 0, 0, 0, 0, 0x80, 0x05, 0x21, 0x00,
      0x01, 0x00, 0x01] ++ List.replicate 170 0) ++
    ([0x47, 0x01, 0x01, 0x10] ++ List.replicate 184 0xFF) ++
    ([0x47, 0x00, 0x20, 0x10] ++ List.replicate 184 0) ++
    ([0x47, 0x00, 0x20, 0x10] ++ List.replicate 184 0) ++
    ([0x47, 0x00, 0x20, 0x10] ++ List.replicate 184 0)

/-- C4 (counterexample): on `segFiveTwoVideo` the code accepts the segment
(2 video packets ≥ ⌊5/2⌋ = 2), but the claim as stated requires video
packets to account for at least 50 percent of the 5 synced packets, which
fails; also ⌈0.8·5⌉ happens to agree here, so the 50 percent clause alone
falsifies the biconditional. -/
theorem C4_is_valid_ts_cex :
    is_valid_ts_segment segFiveTwoVideo = true ∧
      claimValidTS segFiveTwoVideo = false := by
  constructor <;> decide


/-- State of the per-segment portion of a recorder loop: the consecutive
failure counter `failed_segment_count`, the `stop_event` flag, the number of
segments handed to `process_segment`, and the number of terminal
`stop(reason=error, error_id=failure)` events published (the model assumes a
client is connected, i.e. `self.socketserver` is set). -/
structure SegLoopState where
  failed : Nat
  stopped : Bool
  processed : Nat
  stops : Nat
  deriving Repr, DecidableEq

/-- Embeds one iteration of the segment loop of
`hls_recorder_basic.HLS_Recorder_Basic.record_stream` (lines 229-254):
`ok` is whether `process_segment` returned a segment (`True`) or `None`.
On failure the counter is incremented and, at 5, a stop event is broadcast
and `stop_event` is set; on success the counter is reset (an `else` branch).
A set `stop_event` makes the loop break before processing. -/
def basicSegStep (st : SegLoopState) (ok : Bool) : SegLoopState :=
  if st.stopped then st
  else if ok then
    { st with failed := 0, processed := st.processed + 1 }
  else
    let f := st.failed + 1
    if 5 ≤ f then
      { st with
          failed := f
          processed := st.processed + 1
          stops := st.stops + 1
          stopped := true }
    else { st with failed := f, processed := st.processed + 1 }

/-- Embeds one iteration of the segment loop of
`hls_recorder_live.HLS_Recorder_Live.record_stream` (lines 164-195): the
structure of `basicSegStep`, except that the reset
`failed_segment_count = 0` is written unconditionally after the
`if segment is None` block (not in an `else`), so it also runs after a
failure that did not reach the threshold. -/
def liveSegStep (st : SegLoopState) (ok : Bool) : SegLoopState :=
  if st.stopped then st
  else if ok then
    { st with failed := 0, processed := st.processed + 1 }
  else
    let f := st.failed + 1
    if 5 ≤ f then
      { st with
          failed := f
          processed := st.processed + 1
          stops := st.stops + 1
          stopped := true }
    else { st with failed := 0, processed := st.processed + 1 }

/-- The basic recorder's segment loop over a stream of `process_segment`
results (consecutive failures carry across playlist refreshes because the
counter lives in `record_stream`). -/
def runBasicSegLoop (rs : List Bool) : SegLoopState :=
  rs.foldl basicSegStep ⟨0, false, 0, 0⟩

/-- The live recorder's segment loop over a stream of `process_segment`
results. -/
def runLiveSegLoop (rs : List Bool) : SegLoopState :=
  rs.foldl liveSegStep ⟨0, false, 0, 0⟩

theorem liveSegLoop_invariant (rs : List Bool) :
    (runLiveSegLoop rs).failed = 0 ∧ (runLiveSegLoop rs).stopped = false ∧
      (runLiveSegLoop rs).stops = 0 := by
  rw [runLiveSegLoop]
  have hgen : ∀ (l : List Bool) (st : SegLoopState), st.failed = 0 →
      st.stopped = false → st.stops = 0 →
      (l.foldl liveSegStep st).failed = 0 ∧
        (l.foldl liveSegStep st).stopped = false ∧
        (l.foldl liveSegStep st).stops = 0 := by
    intro l
    induction l with
    | nil => intro st h1 h2 h3; exact ⟨h1, h2, h3⟩
    | cons r t ih =>
      intro st h1 h2 h3
      rw [List.foldl_cons]
      rcases r with _ | _
      · have hstep : liveSegStep st false =
            { st with failed := 0, processed := st.processed + 1 } := by
          rw [liveSegStep, if_neg (by rw [h2]; simp)]
          rw [if_neg (by simp)]
          rw [h1]
          norm_num
        rw [hstep]
        exact ih _ rfl h2 h3
      · have hstep : liveSegStep st true =
            { st with failed := 0, processed := st.processed + 1 } := by
          rw [liveSegStep, if_neg (by rw [h2]; simp)]
          rw [if_pos rfl]
        rw [hstep]
        exact ih _ rfl h2 h3
  exact hgen rs _ rfl rfl rfl

/-- C1: the five-consecutive-failure rule.  In the basic recorder it behaves
as claimed on a run of six straight failures: one terminal stop event with
`error_id = failure`, the loop stops, and the sixth failing segment is never
processed.  In the live recorder the rule is dead code: the unconditional
`failed_segment_count = 0` after the failure check keeps the counter at 0,
so no run of results ever stops the loop or publishes the stop event, and
all six failures are processed. -/
theorem C1_failure_threshold :
    (∀ rs : List Bool, (runLiveSegLoop rs).stops = 0 ∧
      (runLiveSegLoop rs).stopped = false) ∧
    (runBasicSegLoop (List.replicate 6 false)).stops = 1 ∧
    (runBasicSegLoop (List.replicate 6 false)).stopped = true ∧
    (runBasicSegLoop (List.replicate 6 false)).processed = 5 ∧
    (runLiveSegLoop (List.replicate 6 false)).processed = 6 := by
  refine ⟨?_, by decide, by decide, by decide, by decide⟩
  intro rs
  obtain ⟨h1, h2, h3⟩ := liveSegLoop_invariant rs
  exact ⟨h3, h2⟩


/-- One stripped line of a media playlist, classified exactly the way
`HLSPlaylistProcessor.parse_playlist` dispatches on it.  A `uriLine` is any
line that is empty or does not start with `#` (the source treats both as
segment entries); tag lines carry the value the source extracts from them,
with `none` marking a value whose `int()`/`float()` conversion fails (for
`mediaSeq`/`discSeq` that conversion is unguarded and raises, for `extinf`
and `targetDur` it is caught and stored as `None`).  The `#EXT-X-KEY`
attribute dictionary and the per-segment duration payload are carried by the
emitted tuples only and never influence control flow, so entries are
projected to their sequence number and URI. -/
inductive PLine where
  | uriLine (s : String)
  | mediaSeq (n : Option Int)
  | discSeq (n : Option Int)
  | ptype (t : String)
  | keyLine (k : String)
  | extinf (d : Option Int)
  | targetDur (n : Option Int)
  | endlist
  | discontinuity
  | other
  deriving Repr, DecidableEq

/-- Embeds the instance state of `HLSPlaylistProcessor.__init__`; the dedup
deque is a list plus its `maxlen`. -/
structure PlaylistState where
  last_playlist : List (Int × String)
  dedup_window : List String
  dedup_maxlen : Nat
  current_sequence : Option Int
  current_discontinuity_sequence : Int
  reset_dedup : Bool
  playlist_type : Option String
  encryption_key : Option String
  endlist_seen : Bool
  last_playlist_type : Option String
  last_endlist_seen : Bool
  target_duration : Option Int
  last_target_duration : Option Int
  deriving Repr, DecidableEq

/-- `HLSPlaylistProcessor()` freshly constructed. -/
def initPlaylistState : PlaylistState :=
  ⟨[], [], 500, none, 0, false, none, none, false, none, false, none, none⟩

/-- `deque.append` with a `maxlen`: when full, the leftmost entry drops. -/
def dequeAppend (maxlen : Nat) (w : List String) (x : String) : List String :=
  let w2 := w ++ [x]
  w2.drop (w2.length - maxlen)

/-- The loop-local variables of `parse_playlist`. -/
structure ParseAcc where
  media_sequence : Option Int
  sequence : Option Int
  discontinuity_next : Bool
  playlist_type : Option String
  encryption_key : Option String
  endlist_seen : Bool
  current_duration : Option Int
  playlist : List (Int × String)
  deriving Repr, DecidableEq

/-- The locals of `parse_playlist` at loop entry. -/
def initParseAcc : ParseAcc := ⟨none, none, false, none, none, false, none, []⟩

/-- Embeds one iteration of the line loop of
`HLSPlaylistProcessor.parse_playlist` (lines 50-249); `none` models an
uncaught exception (`int()` on a malformed sequence number). -/
def parseLine (st : PlaylistState) (acc : ParseAcc) :
    PLine → Option (ParseAcc × PlaylistState)
  | .uriLine s =>
    let st2 := if st.reset_dedup then
        { st with dedup_window := [], reset_dedup := false }
      else st
    let acc2 := if acc.discontinuity_next then
        { acc with discontinuity_next := false }
      else acc
    let seq := acc2.sequence.getD 0
    some ({ acc2 with
        sequence := some (seq + 1)
        playlist := acc2.playlist ++ [(seq, s)]
        current_duration := none }, st2)
  | .mediaSeq none => none
  | .mediaSeq (some n) =>
    some ({ acc with media_sequence := some n, sequence := some n }, st)
  | .discSeq none => none
  | .discSeq (some d) =>
    if d ≠ st.current_discontinuity_sequence then
      let rd := if d < st.current_discontinuity_sequence then true
        else if st.current_discontinuity_sequence + 5 < d then true
        else st.reset_dedup
      some (acc, { st with
        reset_dedup := rd
        current_discontinuity_sequence := d })
    else some (acc, st)
  | .ptype t => some ({ acc with playlist_type := some t }, st)
  | .keyLine k => some ({ acc with encryption_key := some k }, st)
  | .extinf d => some ({ acc with current_duration := d }, st)
  | .targetDur n => some (acc, { st with target_duration := n })
  | .endlist => some ({ acc with endlist_seen := true }, st)
  | .discontinuity => some ({ acc with discontinuity_next := true }, st)
  | .other => some (acc, st)

/-- The line loop of `parse_playlist`; on an exception the state mutations
made so far persist (the Python object is mutated in place). -/
def parseLoop (st : PlaylistState) (acc : ParseAcc) :
    List PLine → Option ParseAcc × PlaylistState
  | [] => (some acc, st)
  | l :: t =>
    match parseLine st acc l with
    | none => (none, st)
    | some (acc2, st2) => parseLoop st2 acc2 t

/-- Embeds `HLSPlaylistProcessor.parse_playlist`: run the line loop, then
fold the locals into the instance state (lines 251-258) and return
`(media_sequence, playlist)`; the first component is `none` when parsing
raised. -/
def parse_playlist (st : PlaylistState) (lines : List PLine) :
    Option (Option Int × List (Int × String)) × PlaylistState :=
  match parseLoop st initParseAcc lines with
  | (none, st2) => (none, st2)
  | (some acc, st2) =>
    let st3 := { st2 with
      current_sequence := if acc.media_sequence.isSome then acc.media_sequence
        else st2.current_sequence
      playlist_type := if acc.playlist_type.isSome then acc.playlist_type
        else st2.playlist_type
      encryption_key := if acc.encryption_key.isSome then acc.encryption_key
        else st2.encryption_key
      endlist_seen := st2.endlist_seen || acc.endlist_seen }
    (some (acc.media_sequence, acc.playlist), st3)

/-- Embeds `HLSPlaylistProcessor.count_extinf_tags` on classified lines. -/
def countExtinf (lines : List PLine) : Nat :=
  lines.countP fun l => match l with | .extinf _ => true | _ => false

/-- Lines 287-295 of `HLSPlaylistProcessor.process`: resize the dedup deque
to `min(extinf_count, 500)` when the playlist has EXTINF tags, preserving
the most recent entries (re-building a deque keeps the last `maxlen`). -/
def resizeWindow (st : PlaylistState) (extinfCount : Nat) : PlaylistState :=
  if 0 < extinfCount then
    let m := min extinfCount 500
    if st.dedup_maxlen ≠ m then
      { st with
          dedup_window := st.dedup_window.drop (st.dedup_window.length - m)
          dedup_maxlen := m }
    else st
  else st

/-- Embeds `HLSPlaylistProcessor.diff_playlist`: emit the URIs not in the
dedup window, appending each emitted URI to the window.  Returns the emitted
URIs and the final window. -/
def diffLoop (maxlen : Nat) (w : List String) :
    List (Int × String) → List String × List String
  | [] => ([], w)
  | e :: t =>
    if w.contains e.2 then diffLoop maxlen w t
    else
      let r := diffLoop maxlen (dequeAppend maxlen w e.2) t
      (e.2 :: r.1, r.2)

/-- The window-filling loop of the first-playlist branch of
`HLSPlaylistProcessor.process` (same membership logic as `diff_playlist`,
without emission). -/
def fillLoop (maxlen : Nat) (w : List String) :
    List (Int × String) → List String
  | [] => w
  | e :: t =>
    if w.contains e.2 then fillLoop maxlen w t
    else fillLoop maxlen (dequeAppend maxlen w e.2) t

/-- Lines 307-336 of `HLSPlaylistProcessor.process`: HLS rules 1 and 2,
clearing the dedup window on a backwards media sequence or on a forward jump
beyond `max(15, target_duration * 3)`. -/
def ruleMediaSeq (st2 : PlaylistState) (msv : Int) : PlaylistState :=
  match st2.current_sequence with
  | none => st2
  | some cur =>
    let dseq := msv - cur
    let st3a := if dseq < 0 then { st2 with dedup_window := [] }
      else st2
    let maxJump : Int := match st3a.target_duration with
      | some td => if td ≠ 0 then max 15 (td * 3) else 15
      | none => 15
    if maxJump < dseq then { st3a with dedup_window := [] } else st3a

/-- Lines 338-343 of `HLSPlaylistProcessor.process`: HLS rule 3, clearing
the window when the playlist type changed from a previously non-null value,
then mirroring `last_playlist_type`. -/
def rulePlaylistType (st3 : PlaylistState) : PlaylistState :=
  let st4 := if st3.playlist_type ≠ st3.last_playlist_type then
      (if st3.last_playlist_type.isSome then
        { st3 with dedup_window := [] }
      else st3)
    else st3
  { st4 with last_playlist_type := st4.playlist_type }

/-- Lines 345-349 of `HLSPlaylistProcessor.process`: HLS rule 4, clearing
the window when ENDLIST was seen last time but not this time, then mirroring
`last_endlist_seen`. -/
def ruleEndlist (st4b : PlaylistState) : PlaylistState :=
  let st5 := if st4b.last_endlist_seen && !st4b.endlist_seen then
      { st4b with dedup_window := [] }
    else st4b
  { st5 with last_endlist_seen := st5.endlist_seen }

/-- Lines 351-356 of `HLSPlaylistProcessor.process`: HLS rule 5, clearing
the window when the target duration changed from a previously non-null
value, then mirroring `last_target_duration`. -/
def ruleTargetDur (st5b : PlaylistState) : PlaylistState :=
  let st6 := if st5b.target_duration ≠ st5b.last_target_duration then
      (if st5b.last_target_duration.isSome then
        { st5b with dedup_window := [] }
      else st5b)
    else st5b
  { st6 with last_target_duration := st6.target_duration }

/-- Lines 307-356 of `HLSPlaylistProcessor.process`: the five HLS reset
rules in source order. -/
def applyResetRules (st2 : PlaylistState) (msv : Int) : PlaylistState :=
  ruleTargetDur (ruleEndlist (rulePlaylistType (ruleMediaSeq st2 msv)))

/-- Embeds `HLSPlaylistProcessor.process`: resize the window, parse, apply
the five reset rules, and emit either the whole playlist (first call) or the
deduplicated diff.  Emission is projected to the URI component; the
accompanying key info and duration are payload only. -/
def processPlaylist (st : PlaylistState) (lines : List PLine) :
    List String × PlaylistState :=
  if lines.isEmpty then ([], st)
  else
    let st1 := resizeWindow st (countExtinf lines)
    match parse_playlist st1 lines with
    | (none, st2) => ([], st2)
    | (some (ms, pl), st2) =>
      match ms with
      | none => ([], st2)
      | some msv =>
        let st6b := applyResetRules st2 msv
        if st6b.last_playlist.isEmpty then
          ((pl.map fun e => e.2), { st6b with
            dedup_window := fillLoop st6b.dedup_maxlen st6b.dedup_window pl
            last_playlist := pl
            current_sequence := some msv })
        else
          let r := diffLoop st6b.dedup_maxlen st6b.dedup_window pl
          (r.1, { st6b with
            dedup_window := r.2
            last_playlist := pl
            current_sequence := some msv })

end StreamingServer
namespace StreamingServer

theorem resizeWindow_shape (st : PlaylistState) (c : Nat) :
    ∃ w m, resizeWindow st c =
      { st with
        dedup_window := w
        dedup_maxlen := m } := by
  rw [resizeWindow]
  try dsimp only
  split
  · split
    · exact ⟨_, _, rfl⟩
    · exact ⟨st.dedup_window, st.dedup_maxlen, rfl⟩
  · exact ⟨st.dedup_window, st.dedup_maxlen, rfl⟩

theorem ruleMediaSeq_shape (st : PlaylistState) (msv : Int) :
    ruleMediaSeq st msv = st ∨
      ruleMediaSeq st msv = { st with dedup_window := [] } := by
  rw [ruleMediaSeq]
  rcases hcs : st.current_sequence with _ | cur
  · left
    rfl
  · dsimp only
    split
    · split
      · right; first | rfl | rw [hcs]
      · right; first | rfl | rw [hcs]
    · split
      · right; first | rfl | rw [hcs]
      · left; rfl

theorem rulePlaylistType_shape (st : PlaylistState) :
    rulePlaylistType st =
        { st with last_playlist_type := st.playlist_type } ∨
      rulePlaylistType st = { st with
        dedup_window := []
        last_playlist_type := st.playlist_type } := by
  rw [rulePlaylistType]
  try dsimp only
  split
  · split
    · right; rfl
    · left; rfl
  · left; rfl

theorem ruleEndlist_shape (st : PlaylistState) :
    ruleEndlist st = { st with last_endlist_seen := st.endlist_seen } ∨
      ruleEndlist st = { st with
        dedup_window := []
        last_endlist_seen := st.endlist_seen } := by
  rw [ruleEndlist]
  try dsimp only
  split
  · right; rfl
  · left; rfl

theorem ruleTargetDur_shape (st : PlaylistState) :
    ruleTargetDur st = { st with last_target_duration := st.target_duration } ∨
      ruleTargetDur st = { st with
        dedup_window := []
        last_target_duration := st.target_duration } := by
  rw [ruleTargetDur]
  try dsimp only
  split
  · split
    · right; rfl
    · left; rfl
  · left; rfl

theorem applyResetRules_shape (st : PlaylistState) (msv : Int) :
    applyResetRules st msv =
        { st with
            last_playlist_type := st.playlist_type
            last_endlist_seen := st.endlist_seen
            last_target_duration := st.target_duration } ∨
      applyResetRules st msv =
        { st with
            dedup_window := []
            last_playlist_type := st.playlist_type
            last_endlist_seen := st.endlist_seen
            last_target_duration := st.target_duration } := by
  rw [applyResetRules]
  rcases ruleMediaSeq_shape st msv with h1 | h1 <;> rw [h1] <;>
    [rcases rulePlaylistType_shape st with h2 | h2;
     rcases rulePlaylistType_shape { st with dedup_window := [] } with h2 | h2] <;>
    rw [h2]
  · rcases ruleEndlist_shape { st with last_playlist_type := st.playlist_type }
      with h3 | h3 <;> rw [h3]
    · rcases ruleTargetDur_shape { st with
          last_playlist_type := st.playlist_type
          last_endlist_seen := st.endlist_seen } with h4 | h4 <;> rw [h4]
      · left; rfl
      · right; rfl
    · rcases ruleTargetDur_shape { st with
          dedup_window := []
          last_playlist_type := st.playlist_type
          last_endlist_seen := st.endlist_seen } with h4 | h4 <;> rw [h4]
      · right; rfl
      · right; rfl
  · rcases ruleEndlist_shape { st with
        dedup_window := []
        last_playlist_type := st.playlist_type } with h3 | h3 <;> rw [h3]
    all_goals
      rcases ruleTargetDur_shape { st with
          dedup_window := []
          last_playlist_type := st.playlist_type
          last_endlist_seen := st.endlist_seen } with h4 | h4 <;> rw [h4]
    all_goals right; rfl
  · rcases ruleEndlist_shape { st with
        dedup_window := []
        last_playlist_type := st.playlist_type } with h3 | h3 <;> rw [h3]
    all_goals
      rcases ruleTargetDur_shape { st with
          dedup_window := []
          last_playlist_type := st.playlist_type
          last_endlist_seen := st.endlist_seen } with h4 | h4 <;> rw [h4]
    all_goals right; rfl
  · rcases ruleEndlist_shape { st with
        dedup_window := []
        last_playlist_type := st.playlist_type } with h3 | h3 <;> rw [h3]
    all_goals
      rcases ruleTargetDur_shape { st with
          dedup_window := []
          last_playlist_type := st.playlist_type
          last_endlist_seen := st.endlist_seen } with h4 | h4 <;> rw [h4]
    all_goals right; rfl

end StreamingServer

namespace StreamingServer

theorem applyResetRules_fields (st : PlaylistState) (msv : Int) :
    (applyResetRules st msv).last_playlist = st.last_playlist ∧
    (applyResetRules st msv).dedup_maxlen = st.dedup_maxlen ∧
    (applyResetRules st msv).current_sequence = st.current_sequence ∧
    (applyResetRules st msv).reset_dedup = st.reset_dedup ∧
    (applyResetRules st msv).playlist_type = st.playlist_type ∧
    (applyResetRules st msv).encryption_key = st.encryption_key ∧
    (applyResetRules st msv).endlist_seen = st.endlist_seen ∧
    (applyResetRules st msv).target_duration = st.target_duration ∧
    (applyResetRules st msv).last_playlist_type = st.playlist_type ∧
    (applyResetRules st msv).last_endlist_seen = st.endlist_seen ∧
    (applyResetRules st msv).last_target_duration = st.target_duration := by
  rcases applyResetRules_shape st msv with h | h <;> rw [h] <;>
    exact ⟨rfl, rfl, rfl, rfl, rfl, rfl, rfl, rfl, rfl, rfl, rfl⟩

theorem ruleMediaSeq_id (st : PlaylistState) (msv : Int)
    (h : st.current_sequence = some msv) : ruleMediaSeq st msv = st := by
  rw [ruleMediaSeq, h]
  dsimp only
  rw [if_neg (show ¬ (msv - msv < 0) by omega)]
  rcases htd : st.target_duration with _ | td
  · rw [if_neg (show ¬ ((15 : Int) < msv - msv) by omega)]
  · dsimp only
    rw [if_neg (show ¬ ((if td ≠ 0 then max (15 : Int) (td * 3) else 15) <
        msv - msv) by
      split
      · have := le_max_left (15 : Int) (td * 3); omega
      · omega)]

theorem rulePlaylistType_id (st : PlaylistState)
    (h : st.playlist_type = st.last_playlist_type) :
    rulePlaylistType st = { st with last_playlist_type := st.playlist_type } := by
  rw [rulePlaylistType]
  try dsimp only
  rw [if_neg (by simp [h])]

theorem ruleEndlist_id (st : PlaylistState)
    (h : (st.last_endlist_seen && !st.endlist_seen) = false) :
    ruleEndlist st = { st with last_endlist_seen := st.endlist_seen } := by
  rw [ruleEndlist]
  try dsimp only
  rw [if_neg (by simp [h])]

theorem ruleTargetDur_id (st : PlaylistState)
    (h : st.target_duration = st.last_target_duration) :
    ruleTargetDur st = { st with last_target_duration := st.target_duration } := by
  rw [ruleTargetDur]
  try dsimp only
  rw [if_neg (by simp [h])]

theorem applyResetRules_no_clear (st : PlaylistState) (msv : Int)
    (h1 : st.current_sequence = some msv)
    (h2 : st.playlist_type = st.last_playlist_type)
    (h3 : (st.last_endlist_seen && !st.endlist_seen) = false)
    (h4 : st.target_duration = st.last_target_duration) :
    applyResetRules st msv = { st with
      last_playlist_type := st.playlist_type
      last_endlist_seen := st.endlist_seen
      last_target_duration := st.target_duration } := by
  rw [applyResetRules, ruleMediaSeq_id st msv h1, rulePlaylistType_id st h2]
  rw [ruleEndlist_id { st with last_playlist_type := st.playlist_type } h3]
  rw [ruleTargetDur_id { st with
      last_playlist_type := st.playlist_type
      last_endlist_seen := st.endlist_seen } h4]

end StreamingServer

namespace StreamingServer

theorem parseLoop_preserves (lines : List PLine) : ∀ st acc,
    (parseLoop st acc lines).2.last_playlist = st.last_playlist ∧
    (parseLoop st acc lines).2.dedup_maxlen = st.dedup_maxlen ∧
    (parseLoop st acc lines).2.current_sequence = st.current_sequence ∧
    (parseLoop st acc lines).2.playlist_type = st.playlist_type ∧
    (parseLoop st acc lines).2.encryption_key = st.encryption_key ∧
    (parseLoop st acc lines).2.endlist_seen = st.endlist_seen ∧
    (parseLoop st acc lines).2.last_playlist_type = st.last_playlist_type ∧
    (parseLoop st acc lines).2.last_endlist_seen = st.last_endlist_seen ∧
    (parseLoop st acc lines).2.last_target_duration = st.last_target_duration := by
  induction lines with
  | nil => exact fun st acc => ⟨rfl, rfl, rfl, rfl, rfl, rfl, rfl, rfl, rfl⟩
  | cons l t ih =>
    intro st acc
    rw [parseLoop]
    rcases l with s | n | n | pt | k | d | n | _ | _ | _
    · dsimp only [parseLine]
      cases hb : st.reset_dedup
      · rw [if_neg (by simp)]
        exact ih st _
      · rw [if_pos rfl]
        exact ih _ _
    · rcases n with _ | n
      · exact ⟨rfl, rfl, rfl, rfl, rfl, rfl, rfl, rfl, rfl⟩
      · exact ih _ _
    · rcases n with _ | n
      · exact ⟨rfl, rfl, rfl, rfl, rfl, rfl, rfl, rfl, rfl⟩
      · dsimp only [parseLine]
        by_cases hd : n ≠ st.current_discontinuity_sequence
        · rw [if_pos hd]
          exact ih _ _
        · rw [if_neg hd]
          exact ih _ _
    · exact ih _ _
    · exact ih _ _
    · exact ih _ _
    · exact ih _ _
    · exact ih _ _
    · exact ih _ _
    · exact ih _ _

theorem parseLoop_acc_indep (lines : List PLine) : ∀ st st' acc,
    (parseLoop st acc lines).1 = (parseLoop st' acc lines).1 := by
  induction lines with
  | nil => exact fun st st' acc => rfl
  | cons l t ih =>
    intro st st' acc
    rw [parseLoop, parseLoop]
    rcases l with s | n | n | pt | k | d | n | _ | _ | _
    · exact ih _ _ _
    · rcases n with _ | n
      · rfl
      · exact ih _ _ _
    · rcases n with _ | n
      · rfl
      · dsimp only [parseLine]
        by_cases hd : n ≠ st.current_discontinuity_sequence <;>
          by_cases hd' : n ≠ st'.current_discontinuity_sequence <;>
          [rw [if_pos hd, if_pos hd']; rw [if_pos hd, if_neg hd'];
           rw [if_neg hd, if_pos hd']; rw [if_neg hd, if_neg hd']] <;>
          exact ih _ _ _
    · exact ih _ _ _
    · exact ih _ _ _
    · exact ih _ _ _
    · exact ih _ _ _
    · exact ih _ _ _
    · exact ih _ _ _
    · exact ih _ _ _

theorem parseLoop_append (xs : List PLine) : ∀ ys st acc,
    parseLoop st acc (xs ++ ys) =
      match parseLoop st acc xs with
      | (none, st1) => (none, st1)
      | (some a1, st1) => parseLoop st1 a1 ys := by
  induction xs with
  | nil => exact fun ys st acc => rfl
  | cons l t ih =>
    intro ys st acc
    rw [List.cons_append, parseLoop, parseLoop]
    rcases hpe : parseLine st acc l with _ | ⟨a2, st2⟩
    · rfl
    · exact ih ys st2 a2

end StreamingServer

namespace StreamingServer

theorem parseLoop_window (lines : List PLine) : ∀ st acc,
    (lines.all fun l => match l with
      | PLine.discSeq _ => false | _ => true) = true →
    st.reset_dedup = false →
    (parseLoop st acc lines).2.reset_dedup = false ∧
    (parseLoop st acc lines).2.dedup_window = st.dedup_window := by
  induction lines with
  | nil => exact fun st acc _ hr => ⟨hr, rfl⟩
  | cons l t ih =>
    intro st acc hall hr
    rw [List.all_cons, Bool.and_eq_true] at hall
    obtain ⟨hhead, htail⟩ := hall
    rw [parseLoop]
    rcases l with s | n | n | pt | k | d | n | _ | _ | _
    · dsimp only [parseLine]
      rw [hr, if_neg (by simp)]
      exact ih st _ htail hr
    · rcases n with _ | n
      · exact ⟨hr, rfl⟩
      · exact ih _ _ htail hr
    · simp at hhead
    · exact ih _ _ htail hr
    · exact ih _ _ htail hr
    · exact ih _ _ htail hr
    · exact ih _ _ htail hr
    · exact ih _ _ htail hr
    · exact ih _ _ htail hr
    · exact ih _ _ htail hr

/-- The running value of the TARGETDURATION instance attribute over a list of
lines: the value of the last `#EXT-X-TARGETDURATION` tag, if any, else the
incoming value. -/
def lastTD (lines : List PLine) (x : Option Int) : Option Int :=
  lines.foldl (fun v l => match l with | PLine.targetDur n => n | _ => v) x

theorem lastTD_cons (l : PLine) (t : List PLine) (x : Option Int) :
    lastTD (l :: t) x =
      lastTD t (match l with | PLine.targetDur n => n | _ => x) := rfl

theorem parseLoop_target (lines : List PLine) : ∀ st acc,
    (parseLoop st acc lines).1.isSome = true →
    (parseLoop st acc lines).2.target_duration = lastTD lines st.target_duration := by
  induction lines with
  | nil => exact fun st acc _ => rfl
  | cons l t ih =>
    intro st acc hs
    rw [parseLoop] at hs ⊢
    rw [lastTD_cons]
    rcases l with s | n | n | pt | k | d | n | _ | _ | _
    · dsimp only [parseLine] at hs ⊢
      cases hb : st.reset_dedup
      · rw [hb] at hs
        rw [if_neg (by simp)] at hs ⊢
        exact ih st _ hs
      · rw [hb] at hs
        rw [if_pos rfl] at hs ⊢
        exact ih _ _ hs
    · rcases n with _ | n
      · simp [parseLine] at hs
      · exact ih _ _ hs
    · rcases n with _ | n
      · simp [parseLine] at hs
      · dsimp only [parseLine] at hs ⊢
        by_cases hd : n ≠ st.current_discontinuity_sequence
        · rw [if_pos hd] at hs ⊢
          exact ih _ _ hs
        · rw [if_neg hd] at hs ⊢
          exact ih _ _ hs
    · exact ih _ _ hs
    · exact ih _ _ hs
    · exact ih _ _ hs
    · exact ih _ _ hs
    · exact ih _ _ hs
    · exact ih _ _ hs
    · exact ih _ _ hs

theorem lastTD_append (xs ys : List PLine) (x : Option Int) :
    lastTD (xs ++ ys) x = lastTD ys (lastTD xs x) := by
  simp [lastTD, List.foldl_append]

theorem lastTD_const_or_id (xs : List PLine) :
    (∀ x y, lastTD xs x = lastTD xs y) ∨ (∀ x, lastTD xs x = x) := by
  induction xs with
  | nil => right; intro x; rfl
  | cons l t ih =>
    rcases l with s | n | n | pt | k | d | n | _ | _ | _
    case targetDur => left; intro x y; rfl
    all_goals rcases ih with h | h
    all_goals first
      | (left; intro x y; exact h x y)
      | (right; intro x; exact h x)

theorem lastTD_idem (xs : List PLine) (x : Option Int) :
    lastTD xs (lastTD xs x) = lastTD xs x := by
  rcases lastTD_const_or_id xs with h | h
  · exact h _ _
  · rw [h, h]

theorem diffLoop_all_in (m : Nat) (pl : List (Int × String)) : ∀ w,
    (∀ e ∈ pl, w.contains e.2 = true) → diffLoop m w pl = ([], w) := by
  induction pl with
  | nil => exact fun w _ => rfl
  | cons e t ih =>
    intro w h
    rw [diffLoop, if_pos (h e (List.mem_cons_self e t))]
    exact ih w fun x hx => h x (List.mem_cons_of_mem e hx)

theorem diffLoop_append_new (m : Nat) (pl : List (Int × String)) :
    ∀ w (k : Int) (u : String),
    (∀ e ∈ pl, w.contains e.2 = true) → w.contains u = false →
    (diffLoop m w (pl ++ [(k, u)])).1 = [u] := by
  induction pl with
  | nil =>
    intro w k u _ hu
    rw [List.nil_append, diffLoop]
    dsimp only
    rw [if_neg (by rw [hu]; simp)]
    rfl
  | cons e t ih =>
    intro w k u hall hu
    rw [List.cons_append, diffLoop, if_pos (hall e (List.mem_cons_self e t))]
    exact ih w k u (fun x hx => hall x (List.mem_cons_of_mem e hx)) hu

end StreamingServer

namespace StreamingServer

theorem endlist_after_rules (s : PlaylistState) (msv : Int) :
    (applyResetRules s msv).last_endlist_seen = true →
    (applyResetRules s msv).endlist_seen = true := by
  obtain ⟨-, -, -, -, -, -, f7, -, -, f10, -⟩ := applyResetRules_fields s msv
  intro h
  rw [f7]
  rw [f10] at h
  exact h

theorem processPlaylist_endlist_invariant (st : PlaylistState)
    (lines : List PLine)
    (hinv : st.last_endlist_seen = true → st.endlist_seen = true) :
    (processPlaylist st lines).2.last_endlist_seen = true →
      (processPlaylist st lines).2.endlist_seen = true := by
  rw [processPlaylist]
  split
  · exact hinv
  · dsimp only
    obtain ⟨w, m, hres⟩ := resizeWindow_shape st (countExtinf lines)
    rw [hres, parse_playlist]
    obtain ⟨e1, e2, e3, e4, e5, e6, e7, e8, e9⟩ :=
      parseLoop_preserves lines
        { st with dedup_window := w, dedup_maxlen := m } initParseAcc
    rcases hpl : parseLoop { st with dedup_window := w, dedup_maxlen := m }
        initParseAcc lines with ⟨oacc, st2⟩
    rw [hpl] at e6 e8
    dsimp only at e6 e8
    rcases oacc with _ | acc
    · dsimp only
      intro h
      rw [e6]
      have h2 : st2.last_endlist_seen = true := h
      rw [e8] at h2
      exact hinv h2
    · dsimp only
      rcases hms : acc.media_sequence with _ | msv
      · dsimp only
        intro h
        have h2 : st2.last_endlist_seen = true := h
        rw [e8] at h2
        have h3 : st2.endlist_seen = true := by
          rw [e6]
          exact hinv h2
        show (st2.endlist_seen || acc.endlist_seen) = true
        rw [h3]
        simp
      · dsimp only
        rcases hpt : acc.playlist_type with _ | pt <;>
          rcases henc : acc.encryption_key with _ | ek <;>
          simp only [Option.isSome_some, Option.isSome_none, Bool.false_eq_true,
            eq_self_iff_true, if_true, if_false, reduceIte] <;>
          intro h <;> split at h <;> rename_i hco <;>
          (first | rw [if_pos hco] | rw [if_neg hco]) <;>
          exact endlist_after_rules _ msv h

end StreamingServer

namespace StreamingServer

/-- First playlist of the C2 run: one segment plus `#EXT-X-ENDLIST`. -/
def q1C2 : List PLine :=
  [PLine.mediaSeq (some 0), PLine.extinf (some 4), PLine.uriLine "a",
    PLine.endlist]

/-- Second playlist of the C2 run: the ENDLIST tag is gone and one new
segment appeared. -/
def q2C2 : List PLine :=
  [PLine.mediaSeq (some 0), PLine.extinf (some 4), PLine.uriLine "a",
    PLine.extinf (some 4), PLine.uriLine "b"]

/-- C2: the spec says the dedup window is cleared when ENDLIST transitioned
from present to absent, but the code cannot ever take that branch: (1) on
any state satisfying the reachable-state invariant `last_endlist_seen →
endlist_seen` the rule-4 step reduces to the bare mirror assignment with no
clearing; (2) the invariant holds initially and is preserved by every
`process` call, because `parse_playlist` ors the new ENDLIST flag into the
sticky instance flag; (3) concretely, processing `q1C2` (with ENDLIST) and
then `q2C2` (without) leaves "a" in the dedup window and emits only "b" —
the window is not cleared. -/
theorem C2_endlist_reset_dead :
    (∀ st : PlaylistState,
      (st.last_endlist_seen = true → st.endlist_seen = true) →
      ruleEndlist st = { st with last_endlist_seen := st.endlist_seen }) ∧
    (∀ st lines, (st.last_endlist_seen = true → st.endlist_seen = true) →
      ((processPlaylist st lines).2.last_endlist_seen = true →
        (processPlaylist st lines).2.endlist_seen = true)) ∧
    (initPlaylistState.last_endlist_seen = true →
      initPlaylistState.endlist_seen = true) ∧
    ((processPlaylist initPlaylistState q1C2).2.last_endlist_seen = true ∧
     (q2C2.all fun l => decide (l ≠ PLine.endlist)) = true ∧
     (processPlaylist (processPlaylist initPlaylistState q1C2).2 q2C2).1 =
       ["b"] ∧
     ((processPlaylist (processPlaylist initPlaylistState q1C2).2
        q2C2).2.dedup_window.contains "a") = true) := by
  refine ⟨?_, ?_, ?_, by decide, by decide, by decide, by decide⟩
  · intro st hi
    have hcond : (st.last_endlist_seen && !st.endlist_seen) = false := by
      cases he : st.endlist_seen
      · cases hl : st.last_endlist_seen
        · rfl
        · exact absurd (hi hl) (by simp [he])
      · simp
    exact ruleEndlist_id st hcond
  · intro st lines hi
    exact processPlaylist_endlist_invariant st lines hi
  · intro h
    exact absurd h (by decide)

/-- C2 (witness): the dead-rule component applied at a concrete reachable
state with `endlist_seen = true`. -/
theorem C2_endlist_reset_dead_witness :
    ruleEndlist (processPlaylist initPlaylistState q1C2).2 =
      { (processPlaylist initPlaylistState q1C2).2 with
        last_endlist_seen :=
          (processPlaylist initPlaylistState q1C2).2.endlist_seen } :=
  C2_endlist_reset_dead.1 (processPlaylist initPlaylistState q1C2).2
    (by decide)

end StreamingServer

namespace StreamingServer

theorem rules_last_playlist (s : PlaylistState) (msv : Int) :
    (applyResetRules s msv).last_playlist = s.last_playlist :=
  (applyResetRules_fields s msv).1

theorem rules_reset (s : PlaylistState) (msv : Int) :
    (applyResetRules s msv).reset_dedup = s.reset_dedup :=
  (applyResetRules_fields s msv).2.2.2.1

theorem rules_pt (s : PlaylistState) (msv : Int) :
    (applyResetRules s msv).playlist_type = s.playlist_type :=
  (applyResetRules_fields s msv).2.2.2.2.1

theorem rules_td (s : PlaylistState) (msv : Int) :
    (applyResetRules s msv).target_duration = s.target_duration :=
  (applyResetRules_fields s msv).2.2.2.2.2.2.2.1

theorem rules_mirror_pt (s : PlaylistState) (msv : Int) :
    (applyResetRules s msv).last_playlist_type =
      (applyResetRules s msv).playlist_type := by
  obtain ⟨-, -, -, -, f5, -, -, -, f9, -, -⟩ := applyResetRules_fields s msv
  rw [f5, f9]

theorem rules_mirror_el (s : PlaylistState) (msv : Int) :
    (applyResetRules s msv).last_endlist_seen =
      (applyResetRules s msv).endlist_seen := by
  obtain ⟨-, -, -, -, -, -, f7, -, -, f10, -⟩ := applyResetRules_fields s msv
  rw [f7, f10]

theorem rules_mirror_td (s : PlaylistState) (msv : Int) :
    (applyResetRules s msv).last_target_duration =
      (applyResetRules s msv).target_duration := by
  obtain ⟨-, -, -, -, -, -, -, f8, -, -, f11⟩ := applyResetRules_fields s msv
  rw [f8, f11]

theorem parseLoop_tail_two (st : PlaylistState) (a : ParseAcc) (d : Option Int)
    (u : String) (hr : st.reset_dedup = false) :
    ∃ a3 : ParseAcc,
      parseLoop st a [PLine.extinf d, PLine.uriLine u] = (some a3, st) ∧
      a3.media_sequence = a.media_sequence ∧
      a3.playlist = a.playlist ++ [(a.sequence.getD 0, u)] ∧
      a3.endlist_seen = a.endlist_seen ∧
      a3.playlist_type = a.playlist_type ∧
      a3.encryption_key = a.encryption_key := by
  rw [parseLoop]
  dsimp only [parseLine]
  rw [parseLoop]
  dsimp only [parseLine]
  rw [hr, if_neg (by simp)]
  cases hdn : a.discontinuity_next
  · rw [if_neg (by simp)]
    exact ⟨_, rfl, rfl, rfl, rfl, rfl, rfl⟩
  · rw [if_pos rfl]
    exact ⟨_, rfl, rfl, rfl, rfl, rfl, rfl⟩

end StreamingServer
namespace StreamingServer

/-- C5 (amended): starting from a fresh processor, process a playlist `P`
(no discontinuity-sequence tags, parsing succeeds with media sequence `ms`),
then process `P` with one `#EXTINF`/URI pair appended.  If every URI of `P`
is (still) in the dedup window as resized for the second call and the new
URI `u` is not, the second call emits exactly `[u]`. -/
theorem C5_append_one_uri (P : List PLine) (d : Option Int) (u : String)
    (ms : Int) (out1 : List String) (s1 : PlaylistState) (acc : ParseAcc)
    (hrun : processPlaylist initPlaylistState P = (out1, s1))
    (hnodisc : (P.all fun l => match l with
      | PLine.discSeq _ => false | _ => true) = true)
    (hloc : (parseLoop initPlaylistState initParseAcc P).1 = some acc)
    (hms : acc.media_sequence = some ms)
    (hsub : ∀ e ∈ acc.playlist,
      ((resizeWindow s1 (countExtinf P + 1)).dedup_window.contains e.2) = true)
    (hu : ((resizeWindow s1 (countExtinf P + 1)).dedup_window.contains u)
      = false) :
    (processPlaylist s1 (P ++ [PLine.extinf d, PLine.uriLine u])).1 = [u] := by
  have hne : P.isEmpty = false := by
    cases P
    · rw [parseLoop] at hloc
      dsimp only at hloc
      rw [Option.some_inj] at hloc
      rw [← hloc] at hms
      simp [initParseAcc] at hms
    · rfl
  rw [processPlaylist] at hrun
  rw [if_neg (by simp [hne])] at hrun
  dsimp only at hrun
  obtain ⟨w1, m1, hres1⟩ := resizeWindow_shape initPlaylistState (countExtinf P)
  rw [hres1, parse_playlist] at hrun
  obtain ⟨e1, e2, e3, e4, e5, e6, e7, e8, e9⟩ := parseLoop_preserves P
    { initPlaylistState with dedup_window := w1, dedup_maxlen := m1 }
    initParseAcc
  have hsucc1 : (parseLoop
      { initPlaylistState with dedup_window := w1, dedup_maxlen := m1 }
      initParseAcc P).1 = some acc :=
    (parseLoop_acc_indep P _ initPlaylistState initParseAcc).trans hloc
  obtain ⟨hrst1, hwin1⟩ := parseLoop_window P
    { initPlaylistState with dedup_window := w1, dedup_maxlen := m1 }
    initParseAcc hnodisc rfl
  have htd1 := parseLoop_target P
    { initPlaylistState with dedup_window := w1, dedup_maxlen := m1 }
    initParseAcc (by rw [hsucc1]; rfl)
  rcases hplr : parseLoop
      { initPlaylistState with dedup_window := w1, dedup_maxlen := m1 }
      initParseAcc P with ⟨oacc1, stp1⟩
  rw [hplr] at hsucc1 hrst1 hwin1 htd1 e1 e8
  dsimp only at hsucc1 hrst1 hwin1 htd1 e1 e8
  subst hsucc1
  rw [hplr] at hrun
  dsimp only at hrun
  rw [hms] at hrun
  simp only [Option.isSome_some, reduceIte] at hrun
  try dsimp only at hrun
  rw [rules_last_playlist] at hrun
  dsimp only at hrun
  have hlp1 : stp1.last_playlist = ([] : List (Int × String)) := e1
  rw [hlp1] at hrun
  rw [if_pos (show ([] : List (Int × String)).isEmpty = true from rfl)] at hrun
  rw [Prod.mk.injEq] at hrun
  obtain ⟨hout1, hs1⟩ := hrun
  have hF1 : s1.current_sequence = some ms := by rw [← hs1]
  have hF2 : s1.last_playlist = acc.playlist := by rw [← hs1]
  have hF3 : s1.last_playlist_type = s1.playlist_type := by
    rw [← hs1]; exact rules_mirror_pt _ ms
  have hF4 : s1.last_endlist_seen = s1.endlist_seen := by
    rw [← hs1]; exact rules_mirror_el _ ms
  have hF5 : s1.last_target_duration = s1.target_duration := by
    rw [← hs1]; exact rules_mirror_td _ ms
  have hF6 : s1.reset_dedup = false := by
    rw [← hs1]
    dsimp only
    rw [rules_reset]
    dsimp only
    exact hrst1
  have hF9 : s1.target_duration = lastTD P none := by
    rw [← hs1]
    dsimp only
    rw [rules_td]
    dsimp only
    exact htd1
  have hF7 : (if acc.playlist_type.isSome = true then acc.playlist_type
      else s1.playlist_type) = s1.playlist_type := by
    rcases hpt : acc.playlist_type with _ | pt
    · simp
    · simp only [Option.isSome_some, reduceIte]
      rw [← hs1]
      dsimp only
      rw [rules_pt]
      dsimp only
      rw [hpt]
      simp only [Option.isSome_some, reduceIte]
  have hne2 : (P ++ [PLine.extinf d, PLine.uriLine u]).isEmpty = false := by
    cases P <;> rfl
  have hcnt : countExtinf (P ++ [PLine.extinf d, PLine.uriLine u]) =
      countExtinf P + 1 := by
    rw [countExtinf, countExtinf, List.countP_append]
    rfl
  rw [processPlaylist]
  rw [if_neg (by simp [hne2])]
  dsimp only
  rw [hcnt]
  obtain ⟨w2, m2, hres2⟩ := resizeWindow_shape s1 (countExtinf P + 1)
  rw [hres2, parse_playlist]
  rw [hres2] at hsub hu
  have hsub2 : ∀ e ∈ acc.playlist, w2.contains e.2 = true :=
    fun e he => hsub e he
  have hu2 : w2.contains u = false := hu
  have hsucc2 : (parseLoop { s1 with dedup_window := w2, dedup_maxlen := m2 }
      initParseAcc P).1 = some acc :=
    (parseLoop_acc_indep P _ initPlaylistState initParseAcc).trans hloc
  obtain ⟨p1, p2, p3, p4, p5, p6, p7, p8, p9⟩ := parseLoop_preserves P
    { s1 with dedup_window := w2, dedup_maxlen := m2 } initParseAcc
  obtain ⟨hrst2, hwin2⟩ := parseLoop_window P
    { s1 with dedup_window := w2, dedup_maxlen := m2 } initParseAcc hnodisc
    (show ({ s1 with dedup_window := w2, dedup_maxlen := m2 } :
      PlaylistState).reset_dedup = false from hF6)
  have htd2 := parseLoop_target P
    { s1 with dedup_window := w2, dedup_maxlen := m2 } initParseAcc
    (by rw [hsucc2]; rfl)
  rcases hplr2 : parseLoop { s1 with dedup_window := w2, dedup_maxlen := m2 }
      initParseAcc P with ⟨oacc2, stp2⟩
  rw [hplr2] at hsucc2 hrst2 hwin2 htd2 p1 p4 p6 p7 p8 p9
  dsimp only at hsucc2 hrst2 hwin2 htd2 p1 p4 p6 p7 p8 p9
  subst hsucc2
  rw [parseLoop_append, hplr2]
  dsimp only
  obtain ⟨a3, hta, ha3ms, ha3pl, ha3el, ha3pt, ha3ek⟩ :=
    parseLoop_tail_two stp2 acc d u hrst2
  rw [hta]
  dsimp only
  rw [ha3ms, hms, ha3pt, ha3ek, ha3el]
  simp only [Option.isSome_some, reduceIte]
  try dsimp only
  have p4' : stp2.playlist_type = s1.playlist_type := p4
  have p6' : stp2.endlist_seen = s1.endlist_seen := p6
  have p7' : stp2.last_playlist_type = s1.last_playlist_type := p7
  have p8' : stp2.last_endlist_seen = s1.last_endlist_seen := p8
  have p9' : stp2.last_target_duration = s1.last_target_duration := p9
  have htd2' : stp2.target_duration = lastTD P s1.target_duration := htd2
  have hnc := applyResetRules_no_clear
    { stp2 with
        current_sequence := some ms
        playlist_type := if acc.playlist_type.isSome = true then
          acc.playlist_type else stp2.playlist_type
        encryption_key := if acc.encryption_key.isSome = true then
          acc.encryption_key else stp2.encryption_key
        endlist_seen := stp2.endlist_seen || acc.endlist_seen } ms
    rfl
    (by
      show (if acc.playlist_type.isSome = true then acc.playlist_type
        else stp2.playlist_type) = stp2.last_playlist_type
      rw [p4', p7', hF3]
      exact hF7)
    (by
      show (stp2.last_endlist_seen &&
        !(stp2.endlist_seen || acc.endlist_seen)) = false
      rw [p8', p6', hF4]
      cases hse : s1.endlist_seen
      · rfl
      · simp)
    (by
      show stp2.target_duration = stp2.last_target_duration
      rw [htd2', p9', hF5, hF9, lastTD_idem])
  rw [hnc]
  dsimp only
  have hlp2 : stp2.last_playlist = acc.playlist := by
    have p1' : stp2.last_playlist = s1.last_playlist := p1
    rw [p1', hF2]
  rw [hlp2]
  have hwin2' : stp2.dedup_window = w2 := hwin2
  rcases hemp : acc.playlist with _ | ⟨e0, tl⟩
  · rw [if_pos (show ([] : List (Int × String)).isEmpty = true from rfl)]
    dsimp only
    rw [ha3pl, hemp]
    simp
  · rw [if_neg (by simp)]
    dsimp only
    rw [hwin2', ha3pl]
    exact diffLoop_append_new _ acc.playlist w2 _ u hsub2 hu2

end StreamingServer

namespace StreamingServer

/-- The playlist of the C5 counterexample: a discontinuity-sequence jump
after the last URI arms `reset_dedup` for the NEXT parse. -/
def pC5 : List PLine :=
  [PLine.mediaSeq (some 0), PLine.extinf (some 4), PLine.uriLine "a",
    PLine.discSeq (some 10)]

/-- C5 (counterexample): `pC5 ++ [#EXTINF, "b"]` differs from `pC5` only by
one appended EXTINF/URI pair, yet the second `process` call emits
`["a", "b"]`, not just the new URI: the discontinuity jump in `pC5` armed
`reset_dedup`, which clears the window at the first URI of the second
parse. -/
theorem C5_append_one_uri_cex :
    (processPlaylist initPlaylistState pC5).1 = ["a"] ∧
    (processPlaylist (processPlaylist initPlaylistState pC5).2
      (pC5 ++ [PLine.extinf (some 4), PLine.uriLine "b"])).1 = ["a", "b"] := by
  constructor <;> decide

/-- C5 (witness): the amended theorem applied to a concrete
one-segment playlist and its one-URI extension. -/
theorem C5_append_one_uri_witness :
    (processPlaylist (processPlaylist initPlaylistState
        [PLine.mediaSeq (some 0), PLine.extinf (some 4),
          PLine.uriLine "a"]).2
      ([PLine.mediaSeq (some 0), PLine.extinf (some 4), PLine.uriLine "a"] ++
        [PLine.extinf (some 4), PLine.uriLine "b"])).1 = ["b"] :=
  C5_append_one_uri
    [PLine.mediaSeq (some 0), PLine.extinf (some 4), PLine.uriLine "a"]
    (some 4) "b" 0 _ _
    ⟨some 0, some 1, false, none, none, false, none, [(0, "a")]⟩
    rfl (by decide) (by decide) (by decide) (by decide) (by decide)

end StreamingServer
namespace StreamingServer

/-- The filler, ad, and error URI signatures of
`hls_segment_utils.is_filler_segment`. -/
def fillerSignatures : List (List Char) :=
  [String.toList "_plutotv_error_", String.toList "_plutotv_filler_",
   String.toList "_Space_Station_", String.toList "_Promo/",
   String.toList "_ad_bumper_", String.toList "_Well_be_right_back/"]

/-- Python's `in` on strings: `pat` occurs contiguously in `s`. -/
def isSubstr (pat : List Char) : List Char → Bool
  | [] => pat.isEmpty
  | c :: t => pat.isPrefixOf (c :: t) || isSubstr pat t

/-- Embeds `hls_segment_utils.is_filler_segment`: substring check of any
filler signature in the URI. -/
def is_filler_segment (uri : String) : Bool :=
  fillerSignatures.any fun sig => isSubstr sig uri.toList

/-- Embeds `posixpath.dirname` (used by `os.path.dirname` on the parsed URL
path): everything before the last slash, with trailing slashes stripped
unless the head is all slashes. -/
def dirnameChars (p : List Char) : List Char :=
  let i := p.length - (p.reverse.takeWhile fun c => c ≠ '/').length
  let head := p.take i
  if head ≠ [] ∧ head ≠ List.replicate head.length '/' then
    (head.reverse.dropWhile fun c => c == '/').reverse
  else head

/-- Embeds `hls_playlist_utils.different_uris` for scheme-less URIs (for
which `urlparse(u).path = u`): empty URIs always differ, otherwise compare
the directory parts. -/
def different_uris (uri1 uri2 : String) : Bool :=
  if uri1 = "" || uri2 = "" then true
  else decide (dirnameChars uri1.toList ≠ dirnameChars uri2.toList)

/-- The event-relevant instance state of `HLSSegmentProcessor`
(`__init__`); the byte-level fields (`cc_map`, ffmpeg handles) never
influence indices or events and are projected out. -/
structure SPState where
  segment_index : Int
  previous_segment_index : Int
  section_index : Int
  previous_uri : String
  previous_duration : Int
  previous_pts : Int
  current_resolution : Option Nat
  previous_resolution : Option Nat
  offset : Int
  continuous_pts : Int
  monotonize_segment : Bool
  section_file : String
  previous_filler : Option Bool
  current_filler : Option Bool
  buffering_completed : Bool
  deriving Repr, DecidableEq

/-- A fresh `HLSSegmentProcessor`. -/
def initSPState : SPState :=
  ⟨0, -1, -1, "", 0, 0, none, none, 0, 0, false, "", none, none, false⟩

/-- One playlist segment as seen by `process_segment`: its URI, whether the
download produced a valid TS segment, whether the failure path detects DRM,
and the properties `get_segment_properties` extracts. -/
structure SegInput where
  uri : String
  ok : Bool
  drm : Bool
  resolution : Option Nat
  duration : Option Int
  pts : Option Int
  discontinuity : Bool
  deriving Repr, DecidableEq

/-- How one `process_segment` call ends: normally (`True`), with `None`
(download/validation failure), or with a raised `ValueError`. -/
inductive SegOutcome where
  | ok
  | failed
  | raised
  deriving Repr, DecidableEq

/-- Lines 158-173 of `process_segment`: the `different_uris` block that
decides `new_section` (resolution change or filler change) and updates
`current_filler` / `monotonize_segment`. -/
def newSectionCheck (st : SPState) (uri : String) : Bool × SPState :=
  if different_uris st.previous_uri uri then
    let ns1 : Bool := decide (st.previous_resolution ≠ st.current_resolution)
    let cf := is_filler_segment uri
    let st2 := { st with current_filler := some cf, monotonize_segment := cf }
    let ns2 : Bool := decide (some cf ≠ st.previous_filler)
    (ns1 || ns2, st2)
  else (false, st)

/-- Embeds `HLSSegmentProcessor.process_segment`, projected to state,
lifecycle events and outcome.  Events are `(tag, section_index,
segment_index)` triples in broadcast order; data-plane byte transforms
(shift, continuity counters, discontinuity flags, file writes) do not touch
the modelled state.  The failure path mutates nothing and returns `None` or
raises on DRM; a missing PTS raises after `current_resolution` was already
updated. -/
def process_segment (st : SPState) (rec_dir : String) (buffering : Int)
    (target_duration : Int) (seg : SegInput) :
    SPState × List (String × Int × Int) × SegOutcome :=
  if seg.ok = false then
    (st, [], if seg.drm then SegOutcome.raised else SegOutcome.failed)
  else
    let stA := { st with current_resolution := seg.resolution }
    match seg.pts with
    | none => (stA, [], SegOutcome.raised)
    | some current_pts =>
      let current_duration := seg.duration.getD target_duration
      let ns := newSectionCheck stA seg.uri
      let new_section := ns.1
      let stB := ns.2
      let bumperEvents :=
        if new_section && stB.buffering_completed &&
            stB.previous_filler.getD false &&
            decide (stB.previous_segment_index < 3) then
          [("start", stB.section_index, stB.previous_segment_index)]
        else []
      let stC := if new_section then
          { stB with
              segment_index := 0
              section_index := stB.section_index + 1
              continuous_pts := current_pts
              offset := 0
              section_file := rec_dir ++ "/stream_" ++
                toString (stB.section_index + 1) ++ ".ts" }
        else
          { stB with
              continuous_pts := stB.continuous_pts + stB.previous_duration
              offset := stB.continuous_pts + stB.previous_duration -
                current_pts }
      let startEvents := if stC.segment_index = buffering then
          [("start", stC.section_index, stC.segment_index)]
        else []
      let stD := if stC.segment_index = buffering then
          (if stC.buffering_completed = false then
            { stC with buffering_completed := true }
          else stC)
        else stC
      let stE := { stD with
          previous_segment_index := stD.segment_index
          segment_index := stD.segment_index + 1
          previous_uri := seg.uri
          previous_duration := current_duration
          previous_pts := current_pts
          previous_resolution := stD.current_resolution
          previous_filler := stD.current_filler }
      (stE, bumperEvents ++ startEvents, SegOutcome.ok)

/-- The recorder-side segment loop projected to events: feed segments in
order, stop on a raised exception, collect all broadcasts. -/
def processSegments (rec_dir : String) (buffering target_duration : Int) :
    SPState → List SegInput → List (String × Int × Int)
  | _, [] => []
  | st, seg :: rest =>
    match process_segment st rec_dir buffering target_duration seg with
    | (_, evs, SegOutcome.raised) => evs
    | (st2, evs, _) =>
      evs ++ processSegments rec_dir buffering target_duration st2 rest

end StreamingServer

namespace StreamingServer

theorem newSectionCheck_shape (st : SPState) (u : String) :
    ∃ cf mz, (newSectionCheck st u).2 =
      { st with current_filler := cf, monotonize_segment := mz } := by
  rw [newSectionCheck]
  dsimp only
  split
  · exact ⟨_, _, rfl⟩
  · exact ⟨st.current_filler, st.monotonize_segment, rfl⟩

/-- C3 (amended): for every state and every valid segment, the start events
of one `process_segment` call are characterized exactly: a bumper start
fires iff a new section begins while buffering is completed and the
previous section was a short filler; the regular start fires iff the
per-section segment index — `0` if this segment begins a new section, the
running `segment_index` otherwise — equals the buffering threshold.  In
particular a section entered after buffering completed emits a start on its
first segment only when `buffering = 0` (or via the bumper path), not in
general as the spec claims. -/
theorem C3_start_event_characterization (st : SPState) (rd : String)
    (b td : Int) (seg : SegInput) (p : Int)
    (hok : seg.ok = true) (hpts : seg.pts = some p) :
    (process_segment st rd b td seg).2.1 =
      (if (newSectionCheck { st with current_resolution := seg.resolution }
            seg.uri).1 && st.buffering_completed &&
          st.previous_filler.getD false &&
          decide (st.previous_segment_index < 3) then
        [("start", st.section_index, st.previous_segment_index)]
      else []) ++
      (if (if (newSectionCheck { st with current_resolution := seg.resolution }
            seg.uri).1 then 0 else st.segment_index) = b then
        [("start",
          if (newSectionCheck { st with current_resolution := seg.resolution }
            seg.uri).1 then st.section_index + 1 else st.section_index,
          if (newSectionCheck { st with current_resolution := seg.resolution }
            seg.uri).1 then 0 else st.segment_index)]
      else []) := by
  rw [process_segment, hok]
  rw [if_neg (by simp)]
  dsimp only
  rw [hpts]
  dsimp only
  obtain ⟨cf, mz, hns⟩ := newSectionCheck_shape
    { st with current_resolution := seg.resolution } seg.uri
  rw [hns]
  dsimp only
  cases hb1 : (newSectionCheck { st with current_resolution := seg.resolution }
      seg.uri).1 <;>
    simp only [Bool.false_and, Bool.true_and, Bool.false_eq_true, if_false,
      reduceIte] <;>
    rfl

/-- The three segments of the C3 counterexample run. -/
def segA : SegInput :=
  ⟨"chan/x/seg0.ts", true, false, some 1, some 4, some 100, false⟩

/-- Second segment: same directory, no new section. -/
def segB : SegInput :=
  ⟨"chan/x/seg1.ts", true, false, some 1, some 4, some 200, false⟩

/-- Third segment: different directory and a filler signature, so a new
section begins. -/
def segC : SegInput :=
  ⟨"chan/y_plutotv_filler_/seg0.ts", true, false, some 1, some 4, some 300,
    false⟩

/-- C3 (counterexample): with `buffering = 1`, the whole run emits a single
start event — for section 0 at `segment_index = 1`.  The third segment
begins section 1 after buffering completed, yet its call emits no start
event at all, contradicting the spec sentence that subsequent sections
still emit `start` on their first segment. -/
theorem C3_section_start_cex :
    processSegments "r" 1 4 initSPState [segA, segB, segC] =
      [("start", 0, 1)] ∧
    (process_segment (process_segment (process_segment initSPState
        "r" 1 4 segA).1 "r" 1 4 segB).1 "r" 1 4 segC).2.1 = [] ∧
    (process_segment (process_segment (process_segment initSPState
        "r" 1 4 segA).1 "r" 1 4 segB).1 "r" 1 4 segC).1.section_index = 1 ∧
    (process_segment (process_segment (process_segment initSPState
        "r" 1 4 segA).1 "r" 1 4 segB).1 "r" 1 4 segC).1.buffering_completed
      = true := by
  refine ⟨by decide, by decide, by decide, by decide⟩

/-- C3 (witness): the characterization applied to a fresh processor with
`buffering = 0` on the first segment, which starts section 0 and emits its
start event at index 0. -/
theorem C3_start_event_characterization_witness :
    (process_segment initSPState "r" 0 4 segA).2.1 =
      (if (newSectionCheck { initSPState with
            current_resolution := segA.resolution } segA.uri).1 &&
          initSPState.buffering_completed &&
          initSPState.previous_filler.getD false &&
          decide (initSPState.previous_segment_index < 3) then
        [("start", initSPState.section_index,
          initSPState.previous_segment_index)]
      else []) ++
      (if (if (newSectionCheck { initSPState with
            current_resolution := segA.resolution } segA.uri).1 then 0
          else initSPState.segment_index) = 0 then
        [("start",
          if (newSectionCheck { initSPState with
            current_resolution := segA.resolution } segA.uri).1 then
            initSPState.section_index + 1
          else initSPState.section_index,
          if (newSectionCheck { initSPState with
            current_resolution := segA.resolution } segA.uri).1 then 0
          else initSPState.segment_index)]
      else []) :=
  C3_start_event_characterization initSPState "r" 0 4 segA 100 rfl rfl

end StreamingServer
namespace StreamingServer

/-- Bytewise XOR of two blocks (`strxor` inside AES-CBC). -/
def xorBlock (a b : List Nat) : List Nat :=
  List.zipWith (fun x y => x ^^^ y) a b

/-- CBC-mode encryption core over an abstract 16-byte block permutation
`E`: each plaintext block is XORed with the previous ciphertext block
(initially the IV) and fed through `E`.  The `Nat` argument is structural
fuel, one unit per block; callers pass the data length, which always
suffices. -/
def cbcEncryptN (E : List Nat → List Nat) : Nat → List Nat → List Nat →
    List Nat
  | 0, _, _ => []
  | _ + 1, _, [] => []
  | n + 1, prev, x :: t =>
    let c := E (xorBlock (List.take 16 (x :: t)) prev)
    c ++ cbcEncryptN E n c (List.drop 16 (x :: t))

/-- CBC-mode decryption core over an abstract block inverse `D`: each
ciphertext block is fed through `D` and XORed with the previous ciphertext
block (initially the IV).  Fuel as in `cbcEncryptN`. -/
def cbcDecryptN (D : List Nat → List Nat) : Nat → List Nat → List Nat →
    List Nat
  | 0, _, _ => []
  | _ + 1, _, [] => []
  | n + 1, prev, x :: t =>
    xorBlock (D (List.take 16 (x :: t))) prev ++
      cbcDecryptN D n (List.take 16 (x :: t)) (List.drop 16 (x :: t))

/-- `AES.new(key, MODE_CBC, iv).encrypt` over abstract block map `E`. -/
def cbcEncrypt (E : List Nat → List Nat) (iv data : List Nat) : List Nat :=
  cbcEncryptN E data.length iv data

/-- `AES.new(key, MODE_CBC, iv).decrypt` over abstract block map `D`. -/
def cbcDecrypt (D : List Nat → List Nat) (iv data : List Nat) : List Nat :=
  cbcDecryptN D data.length iv data

/-- PKCS#7 padding to the 16-byte AES block size
(`Crypto.Util.Padding.pad`): append `padLen` copies of `padLen`. -/
def pkcs7Pad (x : List Nat) : List Nat :=
  let padLen := 16 - x.length % 16
  x ++ List.replicate padLen padLen

/-- Embeds `Crypto.Util.Padding.unpad(data, 16)`: `none` models the raised
`ValueError` (zero-length input, length not a multiple of the block size,
padding byte out of range, or inconsistent padding bytes). -/
def pkcs7Unpad (data : List Nat) : Option (List Nat) :=
  if data.length = 0 then none
  else if data.length % 16 ≠ 0 then none
  else
    let pl := data.getLastD 0
    if pl < 1 ∨ min 16 data.length < pl then none
    else if data.drop (data.length - pl) ≠ List.replicate pl pl then none
    else some (data.take (data.length - pl))

/-- The `current_key` dictionary handed to `decrypt_segment`: KEY bytes,
METHOD and IV (each possibly absent). -/
structure KeyInfo where
  key : Option (List Nat)
  method : Option String
  iv : Option (List Nat)
  deriving Repr, DecidableEq

/-- `int.to_bytes(16, 'big')`, big-endian digits. -/
def beBytes : Nat → Nat → List Nat
  | 0, _ => []
  | k + 1, n => beBytes k (n / 256) ++ [n % 256]

/-- `seq.to_bytes(16, 'big')`: `none` models the `OverflowError` for a
negative or too-large sequence number. -/
def toBytes16 (n : Int) : Option (List Nat) :=
  if 0 ≤ n ∧ n < 2 ^ 128 then some (beBytes 16 n.toNat) else none

/-- Embeds `crypt_utils.decrypt_segment` over an abstract AES block
decryption `D` for the configured key: refuse when the key is absent/empty
or the method is not AES-128; derive the IV from the sequence numbers when
the playlist supplied none (or an empty one); any exception inside the
`try` (overflowing sequence, bad key length, bad IV length, data not a
multiple of the block size) and any unpadding failure yields `None`, never
the encrypted bytes. -/
def decrypt_segment (D : List Nat → List Nat) (encrypted_data : List Nat)
    (segment_sequence : Int) (media_sequence_base : Option Int)
    (ck : KeyInfo) : Option (List Nat) :=
  match ck.key with
  | none => none
  | some k =>
    if k.isEmpty then none
    else if ck.method ≠ some "AES-128" then none
    else
      let derived : Option (List Nat) :=
        toBytes16 (match media_sequence_base with
          | some b => b + segment_sequence
          | none => segment_sequence)
      let ivOpt : Option (List Nat) :=
        match ck.iv with
        | some ivb => if ivb.isEmpty then derived else some ivb
        | none => derived
      match ivOpt with
      | none => none
      | some iv =>
        if ¬ (k.length = 16 ∨ k.length = 24 ∨ k.length = 32) then none
        else if iv.length ≠ 16 then none
        else if encrypted_data.length % 16 ≠ 0 then none
        else
          match pkcs7Unpad (cbcDecrypt D iv encrypted_data) with
          | none => none
          | some x => some x

end StreamingServer

namespace StreamingServer

theorem xorBlock_length (a b : List Nat) :
    (xorBlock a b).length = min a.length b.length := by
  simp [xorBlock]

theorem xorBlock_cancel : ∀ (a b : List Nat), a.length = b.length →
    xorBlock (xorBlock a b) b = a := by
  intro a
  induction a with
  | nil => intro b _; rfl
  | cons x t ih =>
    intro b h
    cases b with
    | nil => simp at h
    | cons y s =>
      show ((x ^^^ y) ^^^ y) :: xorBlock (xorBlock t s) s = x :: t
      rw [Nat.xor_assoc, Nat.xor_self, Nat.xor_zero]
      rw [ih s (by simpa using h)]

theorem cbcEncryptN_length (E : List Nat → List Nat)
    (hElen : ∀ b, b.length = 16 → (E b).length = 16) :
    ∀ n (y prev : List Nat), y.length ≤ n → y.length % 16 = 0 →
      prev.length = 16 → (cbcEncryptN E n prev y).length = y.length := by
  intro n
  induction n with
  | zero =>
    intro y prev hy _ _
    cases y
    · rfl
    · simp at hy
  | succ n ih =>
    intro y prev hy hm hp
    cases y with
    | nil => rfl
    | cons x t =>
      simp only [List.length_cons] at hy hm
      rw [cbcEncryptN]
      have hg : 16 ≤ t.length + 1 := by omega
      have htake : (List.take 16 (x :: t)).length = 16 := by
        simp [List.length_take]
        omega
      have hc : (E (xorBlock (List.take 16 (x :: t)) prev)).length = 16 :=
        hElen _ (by rw [xorBlock_length, htake, hp]; simp)
      rw [List.length_append, hc]
      rw [ih (List.drop 16 (x :: t)) _ (by simp [List.length_drop]; omega)
        (by simp [List.length_drop]; omega) hc]
      simp [List.length_drop]
      omega

theorem cbc_roundtrip (E D : List Nat → List Nat)
    (hDE : ∀ b, b.length = 16 → D (E b) = b)
    (hElen : ∀ b, b.length = 16 → (E b).length = 16) :
    ∀ n m (y prev : List Nat), y.length ≤ n → y.length ≤ m →
      y.length % 16 = 0 → prev.length = 16 →
      cbcDecryptN D m prev (cbcEncryptN E n prev y) = y := by
  intro n
  induction n with
  | zero =>
    intro m y prev hy _ _ _
    cases y
    · cases m <;> rfl
    · simp at hy
  | succ n ih =>
    intro m y prev hy hm hmod hp
    cases y with
    | nil => cases m <;> rfl
    | cons x t =>
      simp only [List.length_cons] at hy hm hmod
      have hg : 16 ≤ t.length + 1 := by omega
      obtain ⟨m', rfl⟩ : ∃ m', m = m' + 1 := by
        cases m
        · omega
        · exact ⟨_, rfl⟩
      rw [cbcEncryptN]
      have htake : (List.take 16 (x :: t)).length = 16 := by
        simp [List.length_take]
        omega
      have hxl : (xorBlock (List.take 16 (x :: t)) prev).length = 16 := by
        rw [xorBlock_length, htake, hp]
        simp
      have hcl : (E (xorBlock (List.take 16 (x :: t)) prev)).length = 16 :=
        hElen _ hxl
      obtain ⟨c0, ct, hcc⟩ : ∃ c0 ct,
          E (xorBlock (List.take 16 (x :: t)) prev) = c0 :: ct := by
        rcases hc : E (xorBlock (List.take 16 (x :: t)) prev) with _ | ⟨c0, ct⟩
        · rw [hc] at hcl
          simp at hcl
        · exact ⟨c0, ct, rfl⟩
      rw [hcc, List.cons_append, cbcDecryptN, ← List.cons_append, ← hcc]
      have hctake : List.take 16 (E (xorBlock (List.take 16 (x :: t)) prev) ++
          cbcEncryptN E n (E (xorBlock (List.take 16 (x :: t)) prev))
            (List.drop 16 (x :: t))) =
          E (xorBlock (List.take 16 (x :: t)) prev) :=
        List.take_left' hcl
      have hcdrop : List.drop 16 (E (xorBlock (List.take 16 (x :: t)) prev) ++
          cbcEncryptN E n (E (xorBlock (List.take 16 (x :: t)) prev))
            (List.drop 16 (x :: t))) =
          cbcEncryptN E n (E (xorBlock (List.take 16 (x :: t)) prev))
            (List.drop 16 (x :: t)) :=
        List.drop_left' hcl
      rw [hctake, hcdrop, hDE _ hxl]
      rw [xorBlock_cancel (List.take 16 (x :: t)) prev (by rw [htake, hp])]
      rw [ih m' (List.drop 16 (x :: t)) _
        (by simp [List.length_drop]; omega)
        (by simp [List.length_drop]; omega)
        (by simp [List.length_drop]; omega) hcl]
      exact List.take_append_drop 16 (x :: t)

theorem pkcs7_unpad_pad (x : List Nat) : pkcs7Unpad (pkcs7Pad x) = some x := by
  rw [pkcs7Pad, pkcs7Unpad]
  dsimp only
  have hmod : x.length % 16 < 16 := Nat.mod_lt _ (by omega)
  have hlen : (x ++ List.replicate (16 - x.length % 16)
      (16 - x.length % 16)).length = x.length + (16 - x.length % 16) := by
    simp
  rw [if_neg (by rw [hlen]; omega)]
  rw [if_neg (by rw [hlen]; omega)]
  have hlast : (x ++ List.replicate (16 - x.length % 16)
      (16 - x.length % 16)).getLastD 0 = 16 - x.length % 16 := by
    have hrep : List.replicate (16 - x.length % 16) (16 - x.length % 16) =
        List.replicate (16 - x.length % 16 - 1) (16 - x.length % 16) ++
          [16 - x.length % 16] := by
      conv_lhs => rw [show 16 - x.length % 16 = (16 - x.length % 16 - 1) + 1
        by omega]
      rw [List.replicate_succ']
      rw [show 16 - x.length % 16 - 1 + 1 = 16 - x.length % 16 by omega]
    rw [hrep, ← List.append_assoc, List.getLastD_concat]
  rw [hlast]
  rw [if_neg (by rw [hlen]; omega)]
  have hdrop : (x ++ List.replicate (16 - x.length % 16)
        (16 - x.length % 16)).drop
        ((x ++ List.replicate (16 - x.length % 16)
          (16 - x.length % 16)).length - (16 - x.length % 16)) =
      List.replicate (16 - x.length % 16) (16 - x.length % 16) := by
    rw [hlen, show x.length + (16 - x.length % 16) - (16 - x.length % 16) =
      x.length by omega]
    exact List.drop_left x _
  rw [if_neg (not_ne_iff.mpr hdrop), hlen]
  rw [show x.length + (16 - x.length % 16) - (16 - x.length % 16) = x.length
    by omega]
  rw [List.take_left]

end StreamingServer

namespace StreamingServer

/-- C8: over any block cipher pair `E`/`D` that are mutually inverse
16-byte block maps (as AES-128 encrypt/decrypt are for a fixed key),
`decrypt_segment` with method AES-128, a 16-byte key and a 16-byte IV
returns exactly the PKCS7-padded-then-CBC-encrypted plaintext; and whenever
PKCS7 unpadding of the CBC decryption fails, `decrypt_segment` returns
`None` — never the encrypted bytes. -/
theorem C8_decrypt_segment_roundtrip :
    (∀ E D : List Nat → List Nat,
      (∀ b, b.length = 16 → D (E b) = b) →
      (∀ b, b.length = 16 → (E b).length = 16) →
      ∀ (x k iv : List Nat) (seq : Int) (base : Option Int),
        k.length = 16 → iv.length = 16 →
        decrypt_segment D (cbcEncrypt E iv (pkcs7Pad x)) seq base
          ⟨some k, some "AES-128", some iv⟩ = some x) ∧
    (∀ (D : List Nat → List Nat) (data k iv : List Nat) (seq : Int)
        (base : Option Int),
      k.length = 16 → iv.length = 16 → data.length % 16 = 0 →
      pkcs7Unpad (cbcDecrypt D iv data) = none →
      decrypt_segment D data seq base ⟨some k, some "AES-128", some iv⟩ =
        none) := by
  have route : ∀ (D : List Nat → List Nat) (data k iv : List Nat)
      (seq : Int) (base : Option Int),
      k.length = 16 → iv.length = 16 → data.length % 16 = 0 →
      decrypt_segment D data seq base ⟨some k, some "AES-128", some iv⟩ =
        (match pkcs7Unpad (cbcDecrypt D iv data) with
          | none => none
          | some x => some x) := by
    intro D data k iv seq base hk16 hiv16 hmult
    rw [decrypt_segment.eq_def]
    dsimp only
    have hke : k.isEmpty = false := by
      cases k
      · simp at hk16
      · rfl
    rw [hke]
    rw [if_neg (by simp)]
    rw [if_neg (show ¬ ((some "AES-128" : Option String) ≠ some "AES-128")
      from by simp)]
    have hive : iv.isEmpty = false := by
      cases iv
      · simp at hiv16
      · rfl
    rw [hive]
    rw [if_neg (by simp)]
    dsimp only
    rw [if_neg (not_not_intro (Or.inl hk16))]
    rw [if_neg (not_not_intro hiv16)]
    rw [if_neg (not_not_intro hmult)]
  constructor
  · intro E D hDE hElen x k iv seq base hk16 hiv16
    have hpadmod : (pkcs7Pad x).length % 16 = 0 := by
      simp [pkcs7Pad]
      omega
    have hencmod : (cbcEncrypt E iv (pkcs7Pad x)).length % 16 = 0 := by
      rw [cbcEncrypt, cbcEncryptN_length E hElen (pkcs7Pad x).length
        (pkcs7Pad x) iv le_rfl hpadmod hiv16]
      exact hpadmod
    rw [route D _ k iv seq base hk16 hiv16 hencmod]
    have hrt : cbcDecrypt D iv (cbcEncrypt E iv (pkcs7Pad x)) =
        pkcs7Pad x := by
      rw [cbcDecrypt, cbcEncrypt]
      rw [cbcEncryptN_length E hElen (pkcs7Pad x).length (pkcs7Pad x) iv
        le_rfl hpadmod hiv16]
      exact cbc_roundtrip E D hDE hElen (pkcs7Pad x).length
        (pkcs7Pad x).length (pkcs7Pad x) iv le_rfl le_rfl hpadmod hiv16
    rw [hrt, pkcs7_unpad_pad]
  · intro D data k iv seq base hk16 hiv16 hmult hunpad
    rw [route D data k iv seq base hk16 hiv16 hmult, hunpad]

/-- C8 (witness): the roundtrip with the identity block cipher, a 16-byte
zero key and IV, and plaintext `[1, 2, 3]`; and the `None` branch on a
block whose PKCS7 padding is invalid. -/
theorem C8_decrypt_segment_roundtrip_witness :
    decrypt_segment id
        (cbcEncrypt id (List.replicate 16 0) (pkcs7Pad [1, 2, 3])) 0 none
        ⟨some (List.replicate 16 0), some "AES-128",
          some (List.replicate 16 0)⟩ = some [1, 2, 3] ∧
      decrypt_segment id (List.replicate 16 0) 0 none
        ⟨some (List.replicate 16 0), some "AES-128",
          some (List.replicate 16 0)⟩ = none :=
  ⟨C8_decrypt_segment_roundtrip.1 id id (fun _ _ => rfl) (fun _ h => h)
      [1, 2, 3] (List.replicate 16 0) (List.replicate 16 0) 0 none
      (by decide) (by decide),
    C8_decrypt_segment_roundtrip.2 id (List.replicate 16 0)
      (List.replicate 16 0) (List.replicate 16 0) 0 none (by decide)
      (by decide) (by decide) (by decide)⟩

end StreamingServer
